import Mathlib

/-!
# credibot-api: the smart-chat pipeline

A shallow embedding of `src/handlers/smart_chat.go` (routing, query extraction,
query validation, table resolution, data summary) and of the one call it makes
into `src/handlers/supabase.go`.

Go strings are modelled as lists of runes (`List Char`): the texts handled here
come out of a JSON decoder, so they are valid UTF-8, and every library call the
handlers make (`strings.TrimSpace`, `strings.ToUpper`, `regexp`) works rune by
rune; searching for an ASCII needle gives the same answer on bytes and on runes.
-/

namespace Credibot

/-! ## The `strings` package -/

/-- A Go string, as its sequence of runes. -/
abbrev Str := List Char

/-- The runes of a string literal. -/
abbrev str (s : String) : Str := s.data

/-- Go's `unicode.IsSpace`: the Unicode White_Space property. -/
def isSpace (c : Char) : Bool :=
  let n := c.toNat
  (9 ≤ n && n ≤ 13) || n == 32 || n == 0x85 || n == 0xA0 || n == 0x1680 ||
  (0x2000 ≤ n && n ≤ 0x200A) || n == 0x2028 || n == 0x2029 || n == 0x202F ||
  n == 0x205F || n == 0x3000

/-- Go's `strings.TrimSpace`: drops the leading and the trailing white space. -/
def trimSpace (s : Str) : Str :=
  ((s.dropWhile isSpace).reverse.dropWhile isSpace).reverse

/-- Go's `strings.HasPrefix`. -/
def hasPrefix (s pre : Str) : Bool := pre.isPrefixOf s

/-- Go's `strings.Index`: the offset of the first occurrence of `sub`. -/
def index (s sub : Str) : Option Nat :=
  match s with
  | [] => if sub.isPrefixOf [] then some 0 else none
  | c :: cs =>
    if sub.isPrefixOf (c :: cs) then some 0 else (index cs sub).map (· + 1)

/-- Go's `strings.Contains`. -/
def contains (s sub : Str) : Bool := (index s sub).isSome

/-- Go's `strings.TrimPrefix`. -/
def trimPrefix (s pre : Str) : Str :=
  if hasPrefix s pre then s.drop pre.length else s

/-- Go's `strings.TrimSuffix`. -/
def trimSuffix (s suf : Str) : Str :=
  if suf.isSuffixOf s then s.take (s.length - suf.length) else s

/-- Go's `strings.ReplaceAll` for a non-empty `old`: the occurrences are taken
from left to right without overlap. The first argument bounds the number of
steps; the length of the text is enough. -/
def replaceAllAux (old new : Str) : Nat → Str → Str
  | 0, s => s
  | _ + 1, [] => []
  | n + 1, c :: cs =>
    if old.isPrefixOf (c :: cs) then new ++ replaceAllAux old new n ((c :: cs).drop old.length)
    else c :: replaceAllAux old new n cs

/-- Go's `strings.ReplaceAll` (for a non-empty `old`). -/
def replaceAll (s old new : Str) : Str := replaceAllAux old new s.length s

/-- Go's `unicode.ToUpper`, as far as the handlers can tell: the upper-cased
text is only ever tested against ASCII characters and ASCII classes, and the
runes outside ASCII whose upper case is an ASCII letter are U+017F (long s) and
U+0131 (dotless i). Every other rune outside ASCII is mapped by Go to a rune
outside ASCII and is left in place here. -/
def toUpperRune (c : Char) : Char :=
  if 'a'.toNat ≤ c.toNat ∧ c.toNat ≤ 'z'.toNat then Char.ofNat (c.toNat - 32)
  else if c.toNat = 0x17F then 'S'
  else if c.toNat = 0x131 then 'I'
  else c

/-- Go's `strings.ToUpper`. -/
def toUpper (s : Str) : Str := s.map toUpperRune

/-- Go's `unicode.ToLower`, as far as the handlers can tell: the runes outside
ASCII whose lower case is an ASCII letter are U+212A (Kelvin sign) and U+0130
(capital I with dot above). Every other rune outside ASCII is mapped by Go to a
rune outside ASCII and is left in place here. -/
def toLowerRune (c : Char) : Char :=
  if 'A'.toNat ≤ c.toNat ∧ c.toNat ≤ 'Z'.toNat then Char.ofNat (c.toNat + 32)
  else if c.toNat = 0x212A then 'k'
  else if c.toNat = 0x130 then 'i'
  else c

/-- Go's `strings.ToLower`. -/
def toLower (s : Str) : Str := s.map toLowerRune

/-! ## The `regexp` package

Go's `regexp` returns the leftmost match and, among the matches that start
there, the one a backtracking search finds first. The patterns of the handlers
repeat single-rune classes only, so a pattern is built from classes, their
repetitions, concatenation and the optional group. -/

/-- The patterns used by the handlers. -/
inductive Regex where
  /-- One rune of a class. -/
  | cls (p : Char → Bool)
  /-- The repetition `c+` (greedy) or `c+?` (lazy) of a class. -/
  | plus (greedy : Bool) (p : Char → Bool)
  /-- Concatenation. -/
  | seq (a b : Regex)
  /-- The greedy optional group `(?:a)?`. -/
  | opt (a : Regex)
  /-- The empty pattern. -/
  | eps

/-- The number of leading runes of `s` that lie in the class `p`. -/
def runLen (p : Char → Bool) : Str → Nat
  | [] => 0
  | c :: cs => if p c then runLen p cs + 1 else 0

/-- The lengths of the matches of a pattern at the start of `s`, in the order
in which a backtracking search reaches them: the head is the match that
`regexp` prefers. -/
def Regex.lens : Regex → Str → List Nat
  | .cls p, s =>
    match s with
    | [] => []
    | c :: _ => if p c then [1] else []
  | .plus true p, s => (List.range' 1 (runLen p s)).reverse
  | .plus false p, s => List.range' 1 (runLen p s)
  | .seq a b, s => (a.lens s).flatMap fun i => (b.lens (s.drop i)).map fun j => i + j
  | .opt a, s => a.lens s ++ [0]
  | .eps, _ => [0]

/-- The length of the preferred match at the start of `s`, if there is one. -/
def Regex.matchLen (re : Regex) (s : Str) : Option Nat := (re.lens s).head?

/-- Go's `(*Regexp).FindString`: the text of the leftmost match, the empty
string when nothing matches. -/
def Regex.findString (re : Regex) : Str → Str
  | [] => []
  | c :: cs =>
    match re.matchLen (c :: cs) with
    | some n => (c :: cs).take n
    | none => re.findString cs

/-- Go's `(*Regexp).MatchString`: is there a match anywhere in `s`. -/
def Regex.matchString (re : Regex) : Str → Bool
  | [] => (re.matchLen []).isSome
  | c :: cs => (re.matchLen (c :: cs)).isSome || re.matchString cs

/-- Go's `(*Regexp).ReplaceAllString` for a pattern that matches no empty
text and a replacement without `$`: the matches are taken from left to right,
each the preferred one at its place. The first argument bounds the number of
steps; the length of the text is enough. -/
def Regex.replaceAllAux (re : Regex) (repl : Str) : Nat → Str → Str
  | 0, s => s
  | _ + 1, [] => []
  | n + 1, c :: cs =>
    match re.matchLen (c :: cs) with
    | some (m + 1) => repl ++ Regex.replaceAllAux re repl n (cs.drop m)
    | _ => c :: Regex.replaceAllAux re repl n cs

/-- Go's `(*Regexp).ReplaceAllString` (see `Regex.replaceAllAux`). -/
def Regex.replaceAllString (re : Regex) (s repl : Str) : Str :=
  re.replaceAllAux repl s.length s

/-- Go's `(*Regexp).FindStringSubmatch` for a pattern `a(b)` that ends in its
only group: the text of the leftmost match and the text of the group. -/
def Regex.findStringSubmatch (a b : Regex) : Str → Option (Str × Str)
  | [] => none
  | c :: cs =>
    match (a.lens (c :: cs)).flatMap fun i => (b.lens ((c :: cs).drop i)).map fun j => (i, j) with
    | (i, j) :: _ => some ((c :: cs).take (i + j), ((c :: cs).drop i).take j)
    | [] => Regex.findStringSubmatch a b cs

/-- The class `\s` of `regexp`: tab, newline, form feed, carriage return, space. -/
def reSpace (c : Char) : Bool :=
  c == '\t' || c == '\n' || c.toNat == 12 || c == '\r' || c == ' '

/-- The class `\d` of `regexp`. -/
def reDigit (c : Char) : Bool := '0'.toNat ≤ c.toNat && c.toNat ≤ '9'.toNat

/-- The class `\w` of `regexp`: ASCII letters, digits and the underscore. -/
def reWord (c : Char) : Bool :=
  reDigit c || ('A'.toNat ≤ c.toNat && c.toNat ≤ 'Z'.toNat) ||
  ('a'.toNat ≤ c.toNat && c.toNat ≤ 'z'.toNat) || c == '_'

/-- The class `.` of `regexp` without the `s` flag: any rune but a newline. -/
def reDot (c : Char) : Bool := c != '\n'

/-- A literal rune under the flag `(?i)`: `regexp` matches every rune of its
simple case-folding orbit, which for `s` holds U+017F and for `k` U+212A. -/
def reFold (c r : Char) : Bool :=
  r == c.toUpper || r == c.toLower ||
  (c.toUpper == 'S' && r.toNat == 0x17F) || (c.toUpper == 'K' && r.toNat == 0x212A)

/-- The class `\w` under the flag `(?i)`: closed under case folding, so with
U+017F and U+212A. -/
def reWordFold (c : Char) : Bool := reWord c || c.toNat == 0x17F || c.toNat == 0x212A

/-- A literal text. -/
def Regex.lit : Str → Regex → Regex
  | [], k => k
  | c :: cs, k => .seq (.cls (· == c)) (Regex.lit cs k)

/-- A literal text under the flag `(?i)`. -/
def Regex.litFold : Str → Regex → Regex
  | [], k => k
  | c :: cs, k => .seq (.cls (reFold c)) (Regex.litFold cs k)

/-! ## `src/handlers/smart_chat.go` -/

/-- The pattern of `extractSQLFromResponse`:
`(?i)SELECT\s+.+?FROM\s+\w+(?:\s+WHERE\s+.+?)?(?:\s+ORDER\s+BY\s+.+?)?(?:\s+LIMIT\s+\d+)?`. -/
def extractRe : Regex :=
  .litFold (str "SELECT") <| .seq (.plus true reSpace) <| .seq (.plus false reDot) <|
  .litFold (str "FROM") <| .seq (.plus true reSpace) <| .seq (.plus true reWordFold) <|
  .seq (.opt (.seq (.plus true reSpace) <| .litFold (str "WHERE") <|
    .seq (.plus true reSpace) (.plus false reDot))) <|
  .seq (.opt (.seq (.plus true reSpace) <| .litFold (str "ORDER") <|
    .seq (.plus true reSpace) <| .litFold (str "BY") <|
    .seq (.plus true reSpace) (.plus false reDot)))
  (.opt (.seq (.plus true reSpace) <| .litFold (str "LIMIT") <|
    .seq (.plus true reSpace) (.plus true reDigit)))

/-- The pattern `\s+` of `cleanSQLFromMarkdown`. -/
def spacesRe : Regex := .plus true reSpace

/-- The pattern `SELECT\s+.+\s+FROM\s+\w+` of `isValidSelectQuery`. -/
def structureRe : Regex :=
  .lit (str "SELECT") <| .seq (.plus true reSpace) <| .seq (.plus true reDot) <|
  .seq (.plus true reSpace) <| .lit (str "FROM") <| .seq (.plus true reSpace) (.plus true reWord)

/-- The part of the pattern `from\s+(\w+)` of `convertSQLToPostgREST` before
its group; the group is `\w+`. -/
def fromRe : Regex := .lit (str "from") (.plus true reSpace)

/-- The function `cleanSQLFromMarkdown`: removes markdown formatting from SQL. -/
def cleanSQLFromMarkdown (sql : Str) : Str :=
  let sql := replaceAll sql (str "```sql") []
  let sql := replaceAll sql (str "```SQL") []
  let sql := replaceAll sql (str "```") []
  let sql := trimSpace sql
  let sql := trimSuffix sql (str ";")
  let sql := spacesRe.replaceAllString sql (str " ")
  trimSpace sql

/-- The function `extractSQLFromResponse`: extracts the SQL query from the
reply of the model. -/
def extractSQLFromResponse (response : Str) : Str :=
  if hasPrefix response (str "SQL:") then
    cleanSQLFromMarkdown (trimSpace (trimPrefix response (str "SQL:")))
  else
    match index response (str "SQL:") with
    | some idx => cleanSQLFromMarkdown (trimSpace (response.drop (idx + 4)))
    | none => extractRe.findString response

/-- The forbidden words of `isValidSelectQuery`. -/
def forbidden : List Str :=
  [str "INSERT", str "UPDATE", str "DELETE", str "DROP", str "ALTER", str "CREATE",
   str "TRUNCATE", str "EXEC", str "EXECUTE", str "UNION", str "--", str "/*"]

/-- The function `isValidSelectQuery`: validates that the SQL query is safe. -/
def isValidSelectQuery (query : Str) : Bool :=
  if query = [] then false
  else
    let query := toUpper (trimSpace query)
    if !hasPrefix query (str "SELECT") then false
    else if !contains query (str "FROM") then false
    else if forbidden.any (fun word => contains query word) then false
    else if !structureRe.matchString query then false
    else true

/-- What `analyzeQuestionAndGenerateSQL` returns: `(bool, string, error)`. -/
structure Routing where
  needsData : Bool
  query : Str
  err : Option Str
deriving DecidableEq

/-- The routing step of `analyzeQuestionAndGenerateSQL` (from the line
`response := strings.TrimSpace(...)` to the end), on the content of the first
choice of the completion. -/
def routeReply (content : Str) : Routing :=
  let response := trimSpace content
  if response = str "NO_DATABASE_NEEDED" then ⟨false, [], none⟩
  else
    let sqlQuery := extractSQLFromResponse response
    if sqlQuery = [] then ⟨false, [], none⟩
    else if !isValidSelectQuery sqlQuery then
      ⟨false, [], some (str "invalid or unsafe SQL query generated")⟩
    else ⟨true, sqlQuery, none⟩

/-- The function `analyzeQuestionAndGenerateSQL`. Its surroundings are
arguments: the value of `OPENAI_API_KEY` and the outcome of the completion
call, an error or the contents of the choices. -/
def analyzeQuestionAndGenerateSQL (apiKey : Str) (completion : Except Str (List Str)) : Routing :=
  if apiKey = [] then ⟨false, [], some (str "OpenAI API key not configured")⟩
  else
    match completion with
    | .error e => ⟨false, [], some e⟩
    | .ok [] => ⟨false, [], some (str "no response from OpenAI")⟩
    | .ok (content :: _) => routeReply content

/-- The branch `SmartChat` takes after the analysis. -/
inductive Path where
  /-- The request ends with the status 500 and `Failed to analyze question`. -/
  | failed (msg : Str)
  /-- The branch `executeSupabaseQuery`, then `generateResponseWithData`. -/
  | withData (sqlQuery : Str)
  /-- The branch `generateRegularResponse`. -/
  | direct
deriving DecidableEq

/-- The dispatch of `SmartChat` on the result of the analysis. -/
def smartChatPath (r : Routing) : Path :=
  match r.err with
  | some e => .failed (str "Failed to analyze question: " ++ e)
  | none => if r.needsData && r.query != [] then .withData r.query else .direct

/-- The function `convertSQLToPostgREST`: the table name after `from`. -/
def convertSQLToPostgREST (sqlQuery : Str) : Str :=
  let query := toLower (trimSpace sqlQuery)
  match fromRe.findStringSubmatch (.plus true reWord) query with
  | none => str "clientes"
  | some (_, table) => table

/-- The arguments of a call of `makeSupabaseRequest`; `queryParams` is the Go
map, `nil` being the empty list. -/
structure SupabaseRequest where
  method : Str
  table : Str
  body : Option Str
  queryParams : List (Str × Str)
deriving DecidableEq

/-- The URL `makeSupabaseRequest` builds. -/
def SupabaseRequest.url (baseURL : Str) (r : SupabaseRequest) : Str :=
  let url := baseURL ++ str "/rest/v1/" ++ r.table
  match r.queryParams with
  | [] => url
  | kv :: rest =>
    rest.foldl (fun u p => u ++ str "&" ++ p.1 ++ str "=" ++ p.2)
      (url ++ str "?" ++ kv.1 ++ str "=" ++ kv.2)

/-- The function `executeSupabaseQuery`, up to its call of
`makeSupabaseRequest`: the request it issues, or the error of the missing
credentials. -/
def executeSupabaseQuery (baseURL apiKey sqlQuery : Str) : Except Str SupabaseRequest :=
  if baseURL = [] ∨ apiKey = [] then .error (str "supabase credentials not configured")
  else
    let restQuery := convertSQLToPostgREST sqlQuery
    .ok ⟨str "GET", restQuery, none, []⟩

/-- The records `generateResponseWithData` keeps for the summary. -/
def limitedData {α : Type} (data : List α) : List α :=
  if data.length > 10 then data.take 10 else data

/-- A record of the result set, the Go map `map[string]interface{}`, as its
lookup; `V` stands for the values. -/
abbrev Record (V : Type) := Str → Option V

/-- The pieces `createDataSummary` appends to the summary, one constructor for
each format string. -/
inductive Piece (V : Type) where
  /-- The text `Nenhum dado encontrado.` -/
  | noData
  /-- The line `Total de registros: %d` and an empty line. -/
  | header (total : Nat)
  /-- The line `... e mais %d registros`. -/
  | omitted (count : Int)
  /-- The line `Registro %d:`. -/
  | recordHead (number : Nat)
  /-- The line `  %s: %v`. -/
  | field (name : Str) (value : V)
  /-- The empty line that ends the section of a record. -/
  | sectionEnd

/-- Is the piece the line of the omitted records. -/
def Piece.isOmitted {V : Type} : Piece V → Bool
  | .omitted _ => true
  | _ => false

/-- Is the piece the first line of the section of a record. -/
def Piece.isRecordHead {V : Type} : Piece V → Bool
  | .recordHead _ => true
  | _ => false

/-- The text of a piece; `fmtV` is the verb `%v` on the values. -/
def Piece.render {V : Type} (fmtV : V → Str) : Piece V → Str
  | .noData => str "Nenhum dado encontrado."
  | .header total => str "Total de registros: " ++ (toString total).data ++ str "\n\n"
  | .omitted count => str "... e mais " ++ (toString count).data ++ str " registros\n"
  | .recordHead number => str "Registro " ++ (toString number).data ++ str ":\n"
  | .field name value => str "  " ++ name ++ str ": " ++ fmtV value ++ str "\n"
  | .sectionEnd => str "\n"

/-- The fields `createDataSummary` shows. -/
def importantFields : List Str :=
  [str "nome", str "score_credito", str "classe_risco", str "valor_solicitado",
   str "valor_aprovado", str "decisao", str "status", str "modalidade", str "dias_atraso",
   str "count", str "avg", str "sum"]

/-- The inner loop of `createDataSummary`: the lines of the important fields
the record has. -/
def fieldPieces {V : Type} (record : Record V) : List (Piece V) :=
  importantFields.filterMap fun field => (record field).map (Piece.field field)

/-- The section of one record: its first line, its fields, the empty line. -/
def sectionPieces {V : Type} (i : Nat) (record : Record V) : List (Piece V) :=
  .recordHead (i + 1) :: fieldPieces record ++ [.sectionEnd]

/-- The loop `for i, record := range data` of `createDataSummary`, from the
index `i` on; `total` is `len(data)`. -/
def summaryLoop {V : Type} (total : Nat) : Nat → List (Record V) → List (Piece V)
  | _, [] => []
  | i, record :: rest =>
    if i ≥ 5 then [.omitted ((total : Int) - 5)]
    else sectionPieces i record ++ summaryLoop total (i + 1) rest

/-- The pieces of `createDataSummary`, in the order in which they are appended. -/
def createDataSummaryPieces {V : Type} (data : List (Record V)) : List (Piece V) :=
  if data.length = 0 then [.noData]
  else .header data.length :: summaryLoop data.length 0 data

/-- The function `createDataSummary`: a concise summary of the data. -/
def createDataSummary {V : Type} (fmtV : V → Str) (data : List (Record V)) : Str :=
  (createDataSummaryPieces data).flatMap (Piece.render fmtV)

/-- No two neighbours of the text lie in the class `ws`: the text has no run of
two or more such runes. -/
def noRun (ws : Char → Bool) : Str → Bool
  | [] => true
  | [_] => true
  | a :: b :: rest => !(ws a && ws b) && noRun ws (b :: rest)

/-- The text has no run of two or more runes of the class `\s`, and its only
rune of that class is the space. -/
def Collapsed (t : Str) : Prop :=
  noRun reSpace t = true ∧ ∀ c ∈ t, reSpace c = true → c = ' '

/-- The text holds the keyword `kw`, then one or more runes of the class `\s`,
then an identifier: one or more runes of the class `\w`. -/
def HasToken (kw s : Str) : Prop :=
  ∃ pre ws ident post, s = pre ++ kw ++ ws ++ ident ++ post ∧
    ws ≠ [] ∧ (∀ c ∈ ws, reSpace c = true) ∧ ident ≠ [] ∧ (∀ c ∈ ident, reWord c = true)

/-- An ASCII lower-case letter, a digit or the underscore. -/
def isTableRune (c : Char) : Bool :=
  ('a'.toNat ≤ c.toNat && c.toNat ≤ 'z'.toNat) || reDigit c || c == '_'

/-- Go's `strings.Split(s, "\n")`: the lines of a text. -/
def splitLines : Str → List Str
  | [] => [[]]
  | c :: cs =>
    if c = '\n' then [] :: splitLines cs
    else
      match splitLines cs with
      | l :: ls => (c :: l) :: ls
      | [] => [[c]]

/-- The line of the omitted records, as `createDataSummary` writes it. -/
def omittedLine (count : Int) : Str :=
  str "... e mais " ++ (toString count).data ++ str " registros"

/-- The first line of the section of a record, as `createDataSummary` writes it. -/
def headLine (number : Nat) : Str := str "Registro " ++ (toString number).data ++ str ":"

/-- Does a line of the summary read as a line of omitted records:
`... e mais`, something, `registros`. -/
def isOmittedLine (l : Str) : Bool :=
  hasPrefix l (str "... e mais ") && (str " registros").isSuffixOf l

/-- Does a line of the summary read as the first line of a section:
`Registro`, something, a colon. -/
def isHeadLine (l : Str) : Bool := hasPrefix l (str "Registro ") && (str ":").isSuffixOf l

/-- The lines a piece adds to the summary, each to be ended by a line break. -/
def Piece.lines {V : Type} (fmtV : V → Str) : Piece V → List Str
  | .noData => []
  | .header total => [str "Total de registros: " ++ (toString total).data, []]
  | .omitted count => [omittedLine count]
  | .recordHead number => [headLine number]
  | .field name value => [str "  " ++ name ++ str ": " ++ fmtV value]
  | .sectionEnd => [[]]

/-- The piece is not the text of the empty result, and if it is the line of a
field, neither the name nor the rendered value holds a line break. -/
def Piece.Plain {V : Type} (fmtV : V → Str) : Piece V → Prop
  | .noData => False
  | .field name value => '\n' ∉ name ∧ '\n' ∉ fmtV value
  | _ => True

/-- The text of the section of one record, as `createDataSummary` writes it:
the first line with the number, a line for each listed field the record has,
an empty line. -/
def sectionText {V : Type} (fmtV : V → Str) (i : Nat) (record : Record V) : Str :=
  str "Registro " ++ (toString (i + 1)).data ++ str ":\n" ++
  (importantFields.flatMap fun field =>
    match record field with
    | some value => str "  " ++ field ++ str ": " ++ fmtV value ++ str "\n"
    | none => []) ++
  str "\n"

/-! ## The routing step -/

/-- C1, as the claim states it, fails: the reply `I cannot answer that` is not
the sentinel and yields no query, and the routing step returns
`needsData = false` without an error, so `SmartChat` takes the direct branch. -/
theorem routeReply_no_query_counterexample :
    trimSpace (str "I cannot answer that") ≠ str "NO_DATABASE_NEEDED" ∧
    extractSQLFromResponse (trimSpace (str "I cannot answer that")) = [] ∧
    (routeReply (str "I cannot answer that")).err = none ∧
    (routeReply (str "I cannot answer that")).needsData = false ∧
    smartChatPath (routeReply (str "I cannot answer that")) = .direct := by
  decide

/-- C1, amended: for every reply whose trimmed text is not the sentinel and
from which `extractSQLFromResponse` yields the empty string, the routing step of
`analyzeQuestionAndGenerateSQL` returns `needsData = false` and the empty query
with no error, and `SmartChat` takes the direct branch. -/
theorem routeReply_no_query (k : Char) (key content : Str) (rest : List Str)
    (hs : trimSpace content ≠ str "NO_DATABASE_NEEDED")
    (he : extractSQLFromResponse (trimSpace content) = []) :
    analyzeQuestionAndGenerateSQL (k :: key) (.ok (content :: rest)) = ⟨false, [], none⟩ ∧
    routeReply content = ⟨false, [], none⟩ ∧
    smartChatPath (routeReply content) = .direct := by
  have h : routeReply content = ⟨false, [], none⟩ := by
    simp [routeReply, hs, he]
  refine ⟨?_, h, ?_⟩
  · simp [analyzeQuestionAndGenerateSQL, h]
  · rw [h]; rfl

/-- The amended C1 at the reply `I cannot answer that`. -/
theorem routeReply_no_query_witness :
    analyzeQuestionAndGenerateSQL (str "sk-1") (.ok [str "I cannot answer that"])
      = ⟨false, [], none⟩ ∧
    routeReply (str "I cannot answer that") = ⟨false, [], none⟩ ∧
    smartChatPath (routeReply (str "I cannot answer that")) = .direct :=
  routeReply_no_query 's' (str "k-1") (str "I cannot answer that") [] (by decide) (by decide)

/-! ## The storage read -/

/-- C2, the code at the failing input: `SELECT nome FROM clientes LIMIT 10` is
a validated query, and the request `executeSupabaseQuery` issues for it is a
`GET` of `https://db/rest/v1/clientes` with no parameters at all: neither the
`LIMIT 10` of the query nor a cap of 50 reaches the storage. -/
theorem executeSupabaseQuery_limit_missing :
    isValidSelectQuery (str "SELECT nome FROM clientes LIMIT 10") = true ∧
    ∃ r, executeSupabaseQuery (str "https://db") (str "key")
        (str "SELECT nome FROM clientes LIMIT 10") = .ok r ∧
      r.queryParams = [] ∧ (∀ v, (str "limit", v) ∉ r.queryParams) ∧
      r.url (str "https://db") = str "https://db/rest/v1/clientes" := by
  refine ⟨by decide, ⟨str "GET", str "clientes", none, []⟩, ?_, rfl, ?_, by decide⟩
  · have h : convertSQLToPostgREST (str "SELECT nome FROM clientes LIMIT 10") = str "clientes" := by
      decide
    simp [executeSupabaseQuery, h]
  · intro v; simp

/-- Whatever the query, the request `executeSupabaseQuery` issues passes no
parameters to `makeSupabaseRequest`: it is a `GET` of `<base>/rest/v1/<table>`,
and only the table name of the query is kept. -/
theorem executeSupabaseQuery_no_params (baseURL apiKey sqlQuery : Str) (r : SupabaseRequest)
    (h : executeSupabaseQuery baseURL apiKey sqlQuery = .ok r) :
    r.queryParams = [] ∧ r.method = str "GET" ∧
    r.url baseURL = baseURL ++ str "/rest/v1/" ++ convertSQLToPostgREST sqlQuery := by
  unfold executeSupabaseQuery at h
  split at h
  · cases h
  · cases h
    exact ⟨rfl, rfl, rfl⟩

/-! ## Facts on the strings -/

theorem toUpperRune_of_isSpace (c : Char) (h : isSpace c = true) : toUpperRune c = c := by
  simp only [isSpace, Bool.or_eq_true, Bool.and_eq_true, decide_eq_true_eq, beq_iff_eq] at h
  unfold toUpperRune
  have ha : 'a'.toNat = 97 := rfl
  have hz : 'z'.toNat = 122 := rfl
  rw [ha, hz]
  split_ifs <;> first | rfl | omega

theorem contains_iff (s sub : Str) : contains s sub = true ↔ sub <:+: s := by
  unfold contains
  induction s with
  | nil =>
    unfold index
    cases sub <;> simp
  | cons c cs ih =>
    unfold index
    rw [List.infix_cons_iff, ← ih]
    by_cases h : sub.isPrefixOf (c :: cs) = true
    · simp [h, List.isPrefixOf_iff_prefix.mp h]
    · have h' : ¬ sub <+: c :: cs := fun hp => h (List.isPrefixOf_iff_prefix.mpr hp)
      simp [h, h']

theorem infix_of_infix_append_left (tok pre l : Str) (hp : ∀ c ∈ pre, c ∉ tok)
    (h : tok <:+: pre ++ l) : tok <:+: l := by
  induction pre with
  | nil => simpa using h
  | cons a pre ih =>
    have hp' : ∀ c ∈ pre, c ∉ tok := fun c hc => hp c (List.mem_cons_of_mem _ hc)
    rw [List.cons_append, List.infix_cons_iff] at h
    rcases h with h | h
    · cases tok with
      | nil => exact List.nil_infix
      | cons t ts =>
        have : t = a := by
          obtain ⟨r, hr⟩ := h
          simp at hr
          exact hr.1
        exact absurd (by simp [this]) (hp a (List.mem_cons_self _ _))
    · exact ih hp' h

theorem infix_of_infix_append_right (tok l post : Str) (hp : ∀ c ∈ post, c ∉ tok)
    (h : tok <:+: l ++ post) : tok <:+: l := by
  rw [← List.reverse_infix] at h ⊢
  rw [List.reverse_append] at h
  exact infix_of_infix_append_left _ _ _ (by simpa using hp) h

theorem trimSpace_eq (s : Str) : trimSpace s = (s.dropWhile isSpace).rdropWhile isSpace := rfl

theorem rdropWhile_append_rtakeWhile (p : Char → Bool) (l : Str) :
    l.rdropWhile p ++ l.rtakeWhile p = l := by
  have h2 : (List.takeWhile p l.reverse ++ List.dropWhile p l.reverse).reverse = l.reverse.reverse :=
    congrArg List.reverse (List.takeWhile_append_dropWhile p l.reverse)
  rw [List.reverse_append, List.reverse_reverse] at h2
  exact h2

theorem trimSpace_decomp (s : Str) :
    ∃ pre post, s = pre ++ trimSpace s ++ post ∧
      (∀ c ∈ pre, isSpace c = true) ∧ (∀ c ∈ post, isSpace c = true) := by
  refine ⟨s.takeWhile isSpace, (s.dropWhile isSpace).rtakeWhile isSpace, ?_, ?_, ?_⟩
  · rw [trimSpace_eq, List.append_assoc, rdropWhile_append_rtakeWhile,
      List.takeWhile_append_dropWhile]
  · intro c hc; exact List.mem_takeWhile_imp hc
  · intro c hc; exact List.mem_rtakeWhile_imp hc

theorem forbidden_no_space (word : Str) (hw : word ∈ forbidden) (c : Char)
    (hc : isSpace c = true) : c ∉ word := by
  intro hm
  have h : ∀ w ∈ forbidden, ∀ d ∈ w, isSpace d = false := by decide
  have := h word hw c hm
  rw [hc] at this
  cases this

theorem contains_toUpper_trimSpace (query word : Str) (hw : word ∈ forbidden)
    (hc : contains (toUpper query) word = true) :
    contains (toUpper (trimSpace query)) word = true := by
  rw [contains_iff] at hc ⊢
  obtain ⟨pre, post, hq, hpre, hpost⟩ := trimSpace_decomp query
  have hmap : ∀ l : Str, (∀ c ∈ l, isSpace c = true) → ∀ c ∈ toUpper l, c ∉ word := by
    intro l hl c hc
    unfold toUpper at hc
    obtain ⟨d, hd, rfl⟩ := List.mem_map.mp hc
    rw [toUpperRune_of_isSpace d (hl d hd)]
    exact forbidden_no_space word hw d (hl d hd)
  rw [hq] at hc
  unfold toUpper at hc hmap ⊢
  rw [List.map_append, List.map_append] at hc
  exact infix_of_infix_append_left _ _ _ (hmap pre hpre)
    (infix_of_infix_append_right _ _ _ (hmap post hpost) (by simpa using hc))

/-! ## The validator -/

/-- C3: a candidate whose upper-cased form contains a forbidden word anywhere
is rejected by `isValidSelectQuery`, whatever else it looks like. -/
theorem isValidSelectQuery_forbidden (query word : Str) (hw : word ∈ forbidden)
    (hc : contains (toUpper query) word = true) : isValidSelectQuery query = false := by
  have h := contains_toUpper_trimSpace query word hw hc
  have hany : forbidden.any (fun w => contains (toUpper (trimSpace query)) w) = true :=
    List.any_eq_true.mpr ⟨word, hw, h⟩
  unfold isValidSelectQuery
  simp only [hany]
  split_ifs <;> rfl

/-- C3 at `SELECT * FROM updates`, whose table name holds `UPDATE`. -/
theorem isValidSelectQuery_forbidden_witness :
    structureRe.matchString (toUpper (str "SELECT * FROM updates")) = true ∧
    isValidSelectQuery (str "SELECT * FROM updates") = false :=
  ⟨by decide, isValidSelectQuery_forbidden (str "SELECT * FROM updates") (str "UPDATE")
    (by decide) (by decide)⟩

theorem trimSpace_of_all_isSpace (query : Str) (h : query.all isSpace = true) :
    trimSpace query = [] := by
  have h' : ∀ c ∈ query, isSpace c = true := by simpa using h
  have : query.dropWhile isSpace = [] := by
    rw [List.dropWhile_eq_nil_iff]; exact h'
  simp [trimSpace, this]

/-- C7: a candidate that is empty or all white space, or whose trimmed,
upper-cased form does not begin with `SELECT`, is rejected by
`isValidSelectQuery`. -/
theorem isValidSelectQuery_not_select (query : Str)
    (h : query.all isSpace = true ∨
      hasPrefix (toUpper (trimSpace query)) (str "SELECT") = false) :
    isValidSelectQuery query = false := by
  have hp : hasPrefix (toUpper (trimSpace query)) (str "SELECT") = false := by
    rcases h with h | h
    · rw [trimSpace_of_all_isSpace query h]; rfl
    · exact h
  simp [isValidSelectQuery, hp]

/-- C7 at the empty string, at a string of white space and at
`DELETE FROM clientes`. -/
theorem isValidSelectQuery_not_select_witness :
    isValidSelectQuery [] = false ∧ isValidSelectQuery (str " \t\n ") = false ∧
    isValidSelectQuery (str "DELETE FROM clientes") = false :=
  ⟨isValidSelectQuery_not_select [] (Or.inl (by decide)),
   isValidSelectQuery_not_select (str " \t\n ") (Or.inl (by decide)),
   isValidSelectQuery_not_select (str "DELETE FROM clientes") (Or.inr (by decide))⟩

/-! ## The routing step, continued -/

/-- C4: whenever `analyzeQuestionAndGenerateSQL` returns `needsData = true`,
whatever the reply, the query it returns is non-empty and accepted by
`isValidSelectQuery`, and there is no error. -/
theorem analyze_needsData_valid (apiKey : Str) (completion : Except Str (List Str))
    (h : (analyzeQuestionAndGenerateSQL apiKey completion).needsData = true) :
    (analyzeQuestionAndGenerateSQL apiKey completion).query ≠ [] ∧
    isValidSelectQuery (analyzeQuestionAndGenerateSQL apiKey completion).query = true ∧
    (analyzeQuestionAndGenerateSQL apiKey completion).err = none := by
  have hr : ∀ content, (routeReply content).needsData = true →
      (routeReply content).query ≠ [] ∧ isValidSelectQuery (routeReply content).query = true ∧
      (routeReply content).err = none := by
    intro content hc
    unfold routeReply at hc ⊢
    by_cases h1 : trimSpace content = str "NO_DATABASE_NEEDED"
    · simp [h1] at hc
    · by_cases h2 : extractSQLFromResponse (trimSpace content) = []
      · simp [h1, h2] at hc
      · by_cases h3 : isValidSelectQuery (extractSQLFromResponse (trimSpace content)) = true
        · simp [h1, h2, h3]
        · simp [h1, h2, h3] at hc
  unfold analyzeQuestionAndGenerateSQL at h ⊢
  by_cases hk : apiKey = []
  · simp [hk] at h
  · cases completion with
    | error e => simp [hk] at h
    | ok l =>
      cases l with
      | nil => simp [hk] at h
      | cons content rest =>
        simp only [hk, if_false] at h ⊢
        exact hr content h

/-- C4 at the reply `SQL: SELECT nome FROM clientes LIMIT 10`. -/
theorem analyze_needsData_valid_witness :
    (analyzeQuestionAndGenerateSQL (str "sk-1")
      (.ok [str "SQL: SELECT nome FROM clientes LIMIT 10"])).query ≠ [] ∧
    isValidSelectQuery (analyzeQuestionAndGenerateSQL (str "sk-1")
      (.ok [str "SQL: SELECT nome FROM clientes LIMIT 10"])).query = true ∧
    (analyzeQuestionAndGenerateSQL (str "sk-1")
      (.ok [str "SQL: SELECT nome FROM clientes LIMIT 10"])).err = none :=
  analyze_needsData_valid (str "sk-1") (.ok [str "SQL: SELECT nome FROM clientes LIMIT 10"])
    (by decide)

/-- C8: for every reply that is not the sentinel and whose extracted query is
non-empty but rejected by `isValidSelectQuery`, the routing step of
`analyzeQuestionAndGenerateSQL` returns an error with `needsData = false` and
the empty query, and `SmartChat` ends the request with that error. -/
theorem routeReply_invalid_query (k : Char) (key content : Str) (rest : List Str)
    (hs : trimSpace content ≠ str "NO_DATABASE_NEEDED")
    (hne : extractSQLFromResponse (trimSpace content) ≠ [])
    (hv : isValidSelectQuery (extractSQLFromResponse (trimSpace content)) = false) :
    analyzeQuestionAndGenerateSQL (k :: key) (.ok (content :: rest))
      = ⟨false, [], some (str "invalid or unsafe SQL query generated")⟩ ∧
    routeReply content = ⟨false, [], some (str "invalid or unsafe SQL query generated")⟩ ∧
    smartChatPath (routeReply content) = .failed
      (str "Failed to analyze question: invalid or unsafe SQL query generated") := by
  have h : routeReply content
      = ⟨false, [], some (str "invalid or unsafe SQL query generated")⟩ := by
    simp [routeReply, hs, hne, hv]
  refine ⟨?_, h, ?_⟩
  · simp [analyzeQuestionAndGenerateSQL, h]
  · rw [h]; rfl

/-- C8 at the reply `SQL: DROP TABLE clientes`, from which the extractor
yields `DROP TABLE clientes`. -/
theorem routeReply_invalid_query_witness :
    extractSQLFromResponse (trimSpace (str "SQL: DROP TABLE clientes"))
      = str "DROP TABLE clientes" ∧
    (analyzeQuestionAndGenerateSQL (str "sk-1") (.ok [str "SQL: DROP TABLE clientes"])
      = ⟨false, [], some (str "invalid or unsafe SQL query generated")⟩ ∧
    routeReply (str "SQL: DROP TABLE clientes")
      = ⟨false, [], some (str "invalid or unsafe SQL query generated")⟩ ∧
    smartChatPath (routeReply (str "SQL: DROP TABLE clientes")) = .failed
      (str "Failed to analyze question: invalid or unsafe SQL query generated")) :=
  ⟨by decide, routeReply_invalid_query 's' (str "k-1") (str "SQL: DROP TABLE clientes") []
    (by decide) (by decide) (by decide)⟩

/-! ## The data summary -/

theorem fieldPieces_is_field {V : Type} (record : Record V) (p : Piece V)
    (hp : p ∈ fieldPieces record) : ∃ name value, p = .field name value := by
  unfold fieldPieces at hp
  obtain ⟨name, _, hn⟩ := List.mem_filterMap.mp hp
  cases hv : record name with
  | none => simp [hv] at hn
  | some value =>
    simp [hv] at hn
    exact ⟨name, value, hn.symm⟩

theorem sectionPieces_filter_isOmitted {V : Type} (i : Nat) (record : Record V) :
    (sectionPieces i record).filter Piece.isOmitted = [] := by
  rw [List.filter_eq_nil_iff]
  intro p hp
  simp only [sectionPieces, List.cons_append, List.mem_cons, List.mem_append,
    List.not_mem_nil, or_false] at hp
  rcases hp with rfl | hp | rfl
  · simp [Piece.isOmitted]
  · obtain ⟨name, value, rfl⟩ := fieldPieces_is_field record p hp
    simp [Piece.isOmitted]
  · simp [Piece.isOmitted]

theorem sectionPieces_filter_isRecordHead {V : Type} (i : Nat) (record : Record V) :
    (sectionPieces i record).filter Piece.isRecordHead = [.recordHead (i + 1)] := by
  have h : (fieldPieces record ++ [Piece.sectionEnd]).filter Piece.isRecordHead = [] := by
    rw [List.filter_eq_nil_iff]
    intro p hp
    simp only [List.mem_append, List.mem_singleton] at hp
    rcases hp with hp | rfl
    · obtain ⟨name, value, rfl⟩ := fieldPieces_is_field record p hp
      simp [Piece.isRecordHead]
    · simp [Piece.isRecordHead]
  unfold sectionPieces
  rw [List.cons_append, List.filter_cons_of_pos (by simp [Piece.isRecordHead]), h]

theorem summaryLoop_filter_isOmitted {V : Type} (total : Nat) (data : List (Record V)) :
    ∀ i, i ≤ 5 → (summaryLoop total i data).filter Piece.isOmitted
      = if 5 < i + data.length then [.omitted ((total : Int) - 5)] else [] := by
  induction data with
  | nil => intro i hi; simp [summaryLoop]; omega
  | cons record rest ih =>
    intro i hi
    unfold summaryLoop
    by_cases h5 : i ≥ 5
    · have : 5 < i + (rest.length + 1) := by omega
      simp [h5, this, Piece.isOmitted]
    · rw [if_neg h5, List.filter_append, sectionPieces_filter_isOmitted, ih (i + 1) (by omega)]
      simp only [List.length_cons, List.nil_append]
      have : i + 1 + rest.length = i + (rest.length + 1) := by omega
      rw [this]

theorem summaryLoop_filter_isRecordHead {V : Type} (total : Nat) (data : List (Record V)) :
    ∀ i, i ≤ 5 → (summaryLoop total i data).filter Piece.isRecordHead
      = (List.range' (i + 1) (min data.length (5 - i))).map Piece.recordHead := by
  induction data with
  | nil => intro i hi; simp [summaryLoop]
  | cons record rest ih =>
    intro i hi
    unfold summaryLoop
    by_cases h5 : i ≥ 5
    · have : 5 - i = 0 := by omega
      simp [h5, this, Piece.isRecordHead]
    · rw [if_neg h5, List.filter_append, sectionPieces_filter_isRecordHead, ih (i + 1) (by omega)]
      have : min (record :: rest).length (5 - i) = min rest.length (5 - (i + 1)) + 1 := by
        simp only [List.length_cons]; omega
      rw [this, List.range'_succ]
      simp

theorem summaryLoop_eq {V : Type} (total : Nat) (data : List (Record V)) :
    ∀ i, i ≤ 5 → summaryLoop total i data
      = ((data.take (5 - i)).enumFrom i).flatMap (fun p => sectionPieces p.1 p.2)
        ++ if 5 < i + data.length then [.omitted ((total : Int) - 5)] else [] := by
  induction data with
  | nil => intro i hi; simp [summaryLoop]; omega
  | cons record rest ih =>
    intro i hi
    unfold summaryLoop
    by_cases h5 : i ≥ 5
    · have h0 : 5 - i = 0 := by omega
      have : 5 < i + (rest.length + 1) := by omega
      simp [h5, h0, this]
    · have hs : 5 - i = (5 - (i + 1)) + 1 := by omega
      rw [if_neg h5, ih (i + 1) (by omega), hs, List.take_succ_cons, List.enumFrom_cons,
        List.flatMap_cons, List.append_assoc]
      have : i + 1 + rest.length = i + (record :: rest).length := by simp; omega
      rw [this]

/-- The pieces of the summary of `n` records hold the line of the omitted
records once, with `n - 5`, when `n > 5`, and not at all when `n ≤ 5`. -/
theorem createDataSummary_omitted {V : Type} (data : List (Record V)) :
    (createDataSummaryPieces data).filter Piece.isOmitted
      = if 5 < data.length then [.omitted ((data.length : Int) - 5)] else [] := by
  unfold createDataSummaryPieces
  by_cases h0 : data.length = 0
  · simp [h0, Piece.isOmitted]
  · rw [if_neg h0, List.filter_cons_of_neg (by simp [Piece.isOmitted]),
      summaryLoop_filter_isOmitted data.length data 0 (by omega)]
    simp

/-- The pieces of the summary of `n` records: the header, the sections of the
first `min n 5` records in their order, the line of the omitted records if
any; `min n 5` first lines of sections, numbered from 1. -/
theorem createDataSummary_sections {V : Type} (data : List (Record V)) :
    createDataSummaryPieces data
      = (if data.length = 0 then [.noData]
         else .header data.length ::
           ((data.take 5).enum.flatMap fun p => sectionPieces p.1 p.2)
           ++ if 5 < data.length then [.omitted ((data.length : Int) - 5)] else []) ∧
    (createDataSummaryPieces data).filter Piece.isRecordHead
      = (List.range' 1 (min data.length 5)).map Piece.recordHead ∧
    ((createDataSummaryPieces data).filter Piece.isRecordHead).length = min data.length 5 ∧
    ((createDataSummaryPieces data).filter Piece.isRecordHead).length ≤ 5 := by
  have hheads : (createDataSummaryPieces data).filter Piece.isRecordHead
      = (List.range' 1 (min data.length 5)).map Piece.recordHead := by
    unfold createDataSummaryPieces
    by_cases h0 : data.length = 0
    · simp [h0, Piece.isRecordHead]
    · rw [if_neg h0, List.filter_cons_of_neg (by simp [Piece.isRecordHead]),
        summaryLoop_filter_isRecordHead data.length data 0 (by omega)]
  refine ⟨?_, hheads, ?_, ?_⟩
  · unfold createDataSummaryPieces
    by_cases h0 : data.length = 0
    · simp [h0]
    · rw [if_neg h0, if_neg h0, summaryLoop_eq data.length data 0 (by omega)]
      simp [List.enum]
  · rw [hheads]; simp
  · rw [hheads]; simp

set_option maxRecDepth 100000 in
/-- Scenario E of the specification: twelve records with a name each; the
summary shows five of them and states that 7 more are left out. -/
theorem createDataSummary_twelve :
    createDataSummary (fun v : Str => v)
      (List.replicate 12 fun f => if f = str "nome" then some (str "Ana") else none)
    = str "Total de registros: 12\n\nRegistro 1:\n  nome: Ana\n\nRegistro 2:\n  nome: Ana\n\nRegistro 3:\n  nome: Ana\n\nRegistro 4:\n  nome: Ana\n\nRegistro 5:\n  nome: Ana\n\n... e mais 7 registros\n" := by
  decide

/-! ## The extractor -/

theorem head?_reverse_range' (k : Nat) :
    (List.range' 1 k).reverse.head? = if k = 0 then none else some k := by
  cases k with
  | zero => rfl
  | succ k =>
    rw [List.range'_1_concat]
    simp [Nat.add_comm]

theorem spacesRe_matchLen (c : Char) (cs : Str) :
    spacesRe.matchLen (c :: cs)
      = if reSpace c = true then some (runLen reSpace cs + 1) else none := by
  unfold spacesRe Regex.matchLen Regex.lens
  rw [head?_reverse_range']
  by_cases h : reSpace c = true <;> simp [runLen, h]

theorem head?_drop_runLen (p : Char → Bool) (s : Str) (d : Char)
    (h : (s.drop (runLen p s)).head? = some d) : p d = false := by
  induction s with
  | nil => simp [runLen] at h
  | cons c cs ih =>
    unfold runLen at h
    by_cases hc : p c = true
    · rw [if_pos hc, List.drop_succ_cons] at h
      exact ih h
    · rw [if_neg hc, List.drop_zero] at h
      simp only [List.head?_cons, Option.some.injEq] at h
      rw [← h]; simpa using hc

theorem noRun_iff (ws : Char → Bool) (t : Str) :
    noRun ws t = true ↔ List.Chain' (fun a b => ¬(ws a = true ∧ ws b = true)) t := by
  induction t with
  | nil => simp [noRun]
  | cons a t ih =>
    cases t with
    | nil => simp [noRun]
    | cons b rest =>
      rw [List.chain'_cons, ← ih]
      cases ha : ws a <;> cases hb : ws b <;> simp [noRun, ha, hb]

theorem replaceAllAux_spaces (n : Nat) : ∀ s : Str, s.length ≤ n →
    Collapsed (spacesRe.replaceAllAux (str " ") n s) ∧
    ((∀ d, s.head? = some d → reSpace d = false) →
      ∀ e, (spacesRe.replaceAllAux (str " ") n s).head? = some e → reSpace e = false) := by
  induction n with
  | zero =>
    intro s hs
    have : s = [] := List.length_eq_zero.mp (by omega)
    subst this
    simp [Regex.replaceAllAux, Collapsed, noRun]
  | succ n ih =>
    intro s hs
    cases s with
    | nil => simp [Regex.replaceAllAux, Collapsed, noRun]
    | cons c cs =>
      unfold Regex.replaceAllAux
      rw [spacesRe_matchLen]
      by_cases hc : reSpace c = true
      · simp only [hc, if_true]
        have hlen : (cs.drop (runLen reSpace cs)).length ≤ n := by
          simp only [List.length_drop, List.length_cons] at hs ⊢; omega
        obtain ⟨⟨hch, hmem⟩, hhead⟩ := ih (cs.drop (runLen reSpace cs)) hlen
        have hh := hhead (fun d hd => head?_drop_runLen reSpace cs d hd)
        refine ⟨⟨?_, ?_⟩, ?_⟩
        · rw [noRun_iff] at hch ⊢
          show List.Chain' _ (' ' :: _)
          rw [List.chain'_cons']
          refine ⟨?_, hch⟩
          intro y hy h2
          have := hh y hy
          rw [h2.2] at this
          cases this
        · intro x hx hsx
          change x ∈ ' ' :: _ at hx
          rcases List.mem_cons.mp hx with rfl | hx
          · rfl
          · exact hmem x hx hsx
        · intro h0
          have := h0 c rfl
          rw [hc] at this
          cases this
      · have hc' : reSpace c = false := by simpa using hc
        simp only [hc', Bool.false_eq_true, if_false]
        have hlen : cs.length ≤ n := by simp only [List.length_cons] at hs; omega
        obtain ⟨⟨hch, hmem⟩, _⟩ := ih cs hlen
        refine ⟨⟨?_, ?_⟩, ?_⟩
        · rw [noRun_iff] at hch ⊢
          show List.Chain' _ (c :: _)
          rw [List.chain'_cons']
          refine ⟨?_, hch⟩
          intro y _ h2
          rw [hc'] at h2
          cases h2.1
        · intro x hx hsx
          rcases List.mem_cons.mp hx with rfl | hx
          · rw [hc'] at hsx; cases hsx
          · exact hmem x hx hsx
        · intro _ e he
          simp only [List.head?_cons, Option.some.injEq] at he
          rw [← he]; exact hc'

theorem trimSpace_sub (s : Str) : trimSpace s <:+: s := by
  rw [trimSpace_eq]
  exact (List.rdropWhile_prefix isSpace _).isInfix.trans (List.dropWhile_suffix isSpace).isInfix

theorem Collapsed.trimSpace {t : Str} (h : Collapsed t) : Collapsed (trimSpace t) := by
  refine ⟨?_, fun c hc => h.2 c ((trimSpace_sub t).subset hc)⟩
  have h1 := (noRun_iff reSpace t).mp h.1
  rw [noRun_iff]
  exact h1.infix (trimSpace_sub t)

theorem trimSpace_head? (s : Str) (c : Char) (h : (trimSpace s).head? = some c) :
    isSpace c = false := by
  rw [trimSpace_eq] at h
  have hne : (s.dropWhile isSpace).rdropWhile isSpace ≠ [] := by
    intro h0; rw [h0] at h; cases h
  have hne' : s.dropWhile isSpace ≠ [] := fun h0 => hne (by rw [h0]; rfl)
  have hp := (List.rdropWhile_prefix isSpace (s.dropWhile isSpace)).head hne
  have hd := List.head_dropWhile_not isSpace s hne'
  rw [List.head?_eq_head hne] at h
  simp only [Option.some.injEq] at h
  rw [← h, hp]
  exact hd

theorem trimSpace_getLast? (s : Str) (c : Char) (h : (trimSpace s).getLast? = some c) :
    isSpace c = false := by
  rw [trimSpace_eq] at h
  have hne : (s.dropWhile isSpace).rdropWhile isSpace ≠ [] := by
    intro h0; rw [h0] at h; cases h
  have hl := List.rdropWhile_last_not isSpace (s.dropWhile isSpace) hne
  rw [List.getLast?_eq_getLast _ hne] at h
  simp only [Option.some.injEq] at h
  rw [h] at hl
  simpa using hl

theorem cleanSQLFromMarkdown_clean (sql : Str) :
    (∀ c, (cleanSQLFromMarkdown sql).head? = some c → isSpace c = false) ∧
    (∀ c, (cleanSQLFromMarkdown sql).getLast? = some c → isSpace c = false) ∧
    Collapsed (cleanSQLFromMarkdown sql) := by
  unfold cleanSQLFromMarkdown
  refine ⟨fun c h => trimSpace_head? _ c h, fun c h => trimSpace_getLast? _ c h, ?_⟩
  exact Collapsed.trimSpace (replaceAllAux_spaces _ _ (Nat.le_refl _)).1

theorem index_of_hasPrefix (s pre : Str) (h : hasPrefix s pre = true) : index s pre = some 0 := by
  unfold hasPrefix at h
  cases s <;> simp [index, h]

theorem extractSQLFromResponse_of_marker (response : Str)
    (h : contains response (str "SQL:") = true) :
    ∃ idx, index response (str "SQL:") = some idx ∧
      extractSQLFromResponse response
        = cleanSQLFromMarkdown (trimSpace (response.drop (idx + 4))) := by
  unfold extractSQLFromResponse
  by_cases hp : hasPrefix response (str "SQL:") = true
  · refine ⟨0, index_of_hasPrefix _ _ hp, ?_⟩
    have h4 : (str "SQL:").length = 4 := rfl
    simp only [hp, if_true, trimPrefix, h4, Nat.zero_add]
  · unfold contains at h
    obtain ⟨idx, hidx⟩ := Option.isSome_iff_exists.mp h
    exact ⟨idx, hidx, by simp [hp, hidx]⟩

/-- C5, as the claim states it, fails. Without the marker the third rule
returns the match as found: from `SELECT  nome FROM clientes` the two spaces
after `SELECT` stay. With the marker the runs are collapsed by the pattern
`\s+`, whose class is narrower than the white space `strings.TrimSpace` strips:
two no-break spaces stay. -/
theorem extractSQLFromResponse_clean_counterexample :
    extractSQLFromResponse (str "SELECT  nome FROM clientes") = str "SELECT  nome FROM clientes" ∧
    noRun reSpace (extractSQLFromResponse (str "SELECT  nome FROM clientes")) = false ∧
    noRun isSpace (extractSQLFromResponse (str "SELECT  nome FROM clientes")) = false ∧
    extractSQLFromResponse (str "SQL: SELECT nome\u00a0\u00a0FROM clientes")
      = str "SELECT nome\u00a0\u00a0FROM clientes" ∧
    noRun isSpace (extractSQLFromResponse (str "SQL: SELECT nome\u00a0\u00a0FROM clientes"))
      = false := by
  decide

/-- C5, amended: for every model text that holds the marker `SQL:` (the first
two rules), `extractSQLFromResponse` returns `cleanSQLFromMarkdown` of the text
after the first marker; the result has no leading and no trailing white space,
no two neighbours in the class `\s` of `regexp` (tab, newline, form feed,
carriage return, space), and no rune of that class but the single space. -/
theorem extractSQLFromResponse_marker_clean (response : Str)
    (h : contains response (str "SQL:") = true) :
    (∃ idx, index response (str "SQL:") = some idx ∧
      extractSQLFromResponse response
        = cleanSQLFromMarkdown (trimSpace (response.drop (idx + 4)))) ∧
    (∀ c, (extractSQLFromResponse response).head? = some c → isSpace c = false) ∧
    (∀ c, (extractSQLFromResponse response).getLast? = some c → isSpace c = false) ∧
    noRun reSpace (extractSQLFromResponse response) = true ∧
    ∀ c ∈ extractSQLFromResponse response, reSpace c = true → c = ' ' := by
  obtain ⟨idx, hidx, he⟩ := extractSQLFromResponse_of_marker response h
  refine ⟨⟨idx, hidx, he⟩, ?_⟩
  rw [he]
  have hc := cleanSQLFromMarkdown_clean (trimSpace (response.drop (idx + 4)))
  exact ⟨hc.1, hc.2.1, hc.2.2.1, hc.2.2.2⟩

/-- The amended C5 at a reply with a code fence, line breaks and a semicolon. -/
theorem extractSQLFromResponse_marker_clean_witness :
    extractSQLFromResponse (str "Claro! SQL: ```sql\nSELECT  nome\n\tFROM clientes ;\n```")
      = str "SELECT nome FROM clientes" ∧
    ((∃ idx, index (str "Claro! SQL: ```sql\nSELECT  nome\n\tFROM clientes ;\n```") (str "SQL:")
        = some idx ∧
      extractSQLFromResponse (str "Claro! SQL: ```sql\nSELECT  nome\n\tFROM clientes ;\n```")
        = cleanSQLFromMarkdown (trimSpace
            ((str "Claro! SQL: ```sql\nSELECT  nome\n\tFROM clientes ;\n```").drop (idx + 4)))) ∧
    (∀ c, (extractSQLFromResponse
        (str "Claro! SQL: ```sql\nSELECT  nome\n\tFROM clientes ;\n```")).head? = some c →
      isSpace c = false) ∧
    (∀ c, (extractSQLFromResponse
        (str "Claro! SQL: ```sql\nSELECT  nome\n\tFROM clientes ;\n```")).getLast? = some c →
      isSpace c = false) ∧
    noRun reSpace (extractSQLFromResponse
      (str "Claro! SQL: ```sql\nSELECT  nome\n\tFROM clientes ;\n```")) = true ∧
    ∀ c ∈ extractSQLFromResponse
        (str "Claro! SQL: ```sql\nSELECT  nome\n\tFROM clientes ;\n```"),
      reSpace c = true → c = ' ') :=
  ⟨by decide, extractSQLFromResponse_marker_clean
    (str "Claro! SQL: ```sql\nSELECT  nome\n\tFROM clientes ;\n```") (by decide)⟩

/-! ## The extractor run twice -/

theorem runLen_take (p : Char → Bool) (s : Str) : ∀ n, runLen p (s.take n) = min n (runLen p s) := by
  induction s with
  | nil => intro n; simp [runLen]
  | cons c cs ih =>
    intro n
    cases n with
    | zero => simp [runLen]
    | succ n =>
      rw [List.take_succ_cons]
      unfold runLen
      by_cases hc : p c = true
      · rw [if_pos hc, if_pos hc, ih n]; omega
      · rw [if_neg hc, if_neg hc]; omega

theorem filter_le_range' (n : Nat) : ∀ k,
    (List.range' 1 k).filter (fun j => decide (j ≤ n)) = List.range' 1 (min n k) := by
  intro k
  induction k with
  | zero => simp
  | succ k ih =>
    rw [List.range'_1_concat, List.filter_append, ih]
    by_cases h : k + 1 ≤ n
    · have h1 : min n k = k := by omega
      have h2 : min n (k + 1) = k + 1 := by omega
      have h3 : 1 + k ≤ n := by omega
      rw [h1, h2, List.range'_1_concat]
      simp [h3]
    · have h1 : min n k = n := by omega
      have h2 : min n (k + 1) = n := by omega
      have h3 : ¬ 1 + k ≤ n := by omega
      rw [h1, h2]
      simp [h3]

theorem flatMap_filter_le (n : Nat) (f g : Nat → List Nat)
    (h1 : ∀ i, i ≤ n → f i = (g i).filter (fun j => decide (j ≤ n)))
    (h2 : ∀ i, n < i → (g i).filter (fun j => decide (j ≤ n)) = []) (l : List Nat) :
    (l.filter (fun j => decide (j ≤ n))).flatMap f
      = (l.flatMap g).filter (fun j => decide (j ≤ n)) := by
  induction l with
  | nil => rfl
  | cons i l ih =>
    rw [List.flatMap_cons, List.filter_append, ← ih]
    by_cases hi : i ≤ n
    · rw [List.filter_cons_of_pos (by simpa using hi), List.flatMap_cons, h1 i hi]
    · rw [List.filter_cons_of_neg (by simpa using hi), h2 i (by omega), List.nil_append]

theorem lens_take (re : Regex) : ∀ (s : Str) (n : Nat),
    re.lens (s.take n) = (re.lens s).filter (fun j => decide (j ≤ n)) := by
  induction re with
  | cls p =>
    intro s n
    cases s with
    | nil => simp [Regex.lens]
    | cons c cs =>
      cases n with
      | zero => by_cases hc : p c = true <;> simp [Regex.lens, hc]
      | succ n => by_cases hc : p c = true <;> simp [Regex.lens, hc]
  | plus greedy p =>
    intro s n
    cases greedy with
    | true =>
      unfold Regex.lens
      rw [runLen_take, List.filter_reverse, filter_le_range']
    | false =>
      unfold Regex.lens
      rw [runLen_take, filter_le_range']
  | seq a b iha ihb =>
    intro s n
    unfold Regex.lens
    rw [iha s n]
    apply flatMap_filter_le
    · intro i hi
      rw [List.drop_take, ihb, List.filter_map]
      congr 1
      apply List.filter_congr
      intro j _
      simp only [Function.comp, decide_eq_decide]
      omega
    · intro i hi
      rw [List.filter_eq_nil_iff]
      intro j hj
      obtain ⟨k, _, rfl⟩ := List.mem_map.mp hj
      simp only [decide_eq_true_eq]
      omega
  | opt a iha =>
    intro s n
    unfold Regex.lens
    rw [iha s n, List.filter_append]
    simp
  | eps =>
    intro s n
    simp [Regex.lens]

theorem lens_le (re : Regex) : ∀ (s : Str), ∀ n ∈ re.lens s, n ≤ s.length := by
  intro s n hn
  have h := lens_take re s s.length
  rw [List.take_length] at h
  rw [h] at hn
  simpa using (List.mem_filter.mp hn).2

theorem matchLen_take (re : Regex) (s : Str) (n : Nat) (h : re.matchLen s = some n) :
    re.matchLen (s.take n) = some n := by
  unfold Regex.matchLen at h ⊢
  rw [lens_take]
  cases hl : re.lens s with
  | nil => rw [hl] at h; cases h
  | cons m l =>
    rw [hl] at h
    simp only [List.head?_cons, Option.some.injEq] at h
    subst h
    simp

theorem findString_findString (re : Regex) (s : Str) :
    re.findString (re.findString s) = re.findString s := by
  induction s with
  | nil => simp [Regex.findString]
  | cons c cs ih =>
    rw [Regex.findString]
    cases hm : re.matchLen (c :: cs) with
    | none => simpa using ih
    | some n =>
      simp only
      have ht := matchLen_take re (c :: cs) n hm
      cases n with
      | zero => simp [Regex.findString]
      | succ n =>
        rw [List.take_succ_cons] at ht ⊢
        rw [Regex.findString, ht]
        simp only
        rw [← List.take_succ_cons, List.take_take, Nat.min_self]

theorem findString_sub (re : Regex) (s : Str) : re.findString s <:+: s := by
  induction s with
  | nil => simp [Regex.findString]
  | cons c cs ih =>
    rw [Regex.findString]
    cases hm : re.matchLen (c :: cs) with
    | none => exact ih.trans (List.suffix_cons c cs).isInfix
    | some n => exact (List.take_prefix n (c :: cs)).isInfix

theorem extractSQLFromResponse_of_no_marker (x : Str)
    (h : contains x (str "SQL:") = false) :
    extractSQLFromResponse x = extractRe.findString x := by
  have hi : index x (str "SQL:") = none := by
    unfold contains at h
    simpa using h
  have hp : hasPrefix x (str "SQL:") = false := by
    cases hq : hasPrefix x (str "SQL:") with
    | false => rfl
    | true => rw [index_of_hasPrefix x _ hq] at hi; cases hi
  simp [extractSQLFromResponse, hp, hi]

/-- C6, the code at the failing input: the reply
`SQL: SELECT nome FROM clientes WHERE score_credito > 700` holds a clean query,
which the first pass returns whole. The second pass finds no marker and matches
the query with the pattern of the third rule, whose lazy `.+?` ends the match
after the first rune of the condition: the result is
`SELECT nome FROM clientes WHERE s`, not the query of the first pass. -/
theorem extractSQLFromResponse_twice_where :
    extractSQLFromResponse (str "SQL: SELECT nome FROM clientes WHERE score_credito > 700")
      = str "SELECT nome FROM clientes WHERE score_credito > 700" ∧
    isValidSelectQuery (str "SELECT nome FROM clientes WHERE score_credito > 700") = true ∧
    extractRe.findString (str "SELECT nome FROM clientes WHERE score_credito > 700")
      = str "SELECT nome FROM clientes WHERE s" ∧
    extractSQLFromResponse (extractSQLFromResponse
        (str "SQL: SELECT nome FROM clientes WHERE score_credito > 700"))
      = str "SELECT nome FROM clientes WHERE s" ∧
    extractSQLFromResponse (extractSQLFromResponse
        (str "SQL: SELECT nome FROM clientes WHERE score_credito > 700"))
      ≠ extractSQLFromResponse (str "SQL: SELECT nome FROM clientes WHERE score_credito > 700") := by
  decide

/-- On a text without the marker `SQL:` the extractor is idempotent: what the
pattern of the third rule matched, it matches again as a whole. -/
theorem extractSQLFromResponse_idempotent (x : Str) (h : contains x (str "SQL:") = false) :
    extractSQLFromResponse (extractSQLFromResponse x) = extractSQLFromResponse x := by
  have h1 := extractSQLFromResponse_of_no_marker x h
  have h2 : contains (extractRe.findString x) (str "SQL:") = false := by
    cases hc : contains (extractRe.findString x) (str "SQL:") with
    | false => rfl
    | true =>
      have := ((contains_iff _ _).mp hc).trans (findString_sub extractRe x)
      rw [(contains_iff _ _).mpr this] at h
      cases h
  rw [h1, extractSQLFromResponse_of_no_marker _ h2, findString_findString]

/-- The extractor run twice on replies where the second pass keeps the query:
with the marker and a `LIMIT`, and without the marker. -/
theorem extractSQLFromResponse_twice_limit :
    extractSQLFromResponse (extractSQLFromResponse (str "SQL: SELECT nome FROM clientes LIMIT 10"))
      = extractSQLFromResponse (str "SQL: SELECT nome FROM clientes LIMIT 10") ∧
    extractSQLFromResponse (str "Consulta: SELECT nome FROM clientes LIMIT 10.")
      = str "SELECT nome FROM clientes LIMIT 10" ∧
    extractSQLFromResponse
        (extractSQLFromResponse (str "Consulta: SELECT nome FROM clientes LIMIT 10."))
      = extractSQLFromResponse (str "Consulta: SELECT nome FROM clientes LIMIT 10.") :=
  ⟨by decide, by decide, extractSQLFromResponse_idempotent
    (str "Consulta: SELECT nome FROM clientes LIMIT 10.") (by decide)⟩

/-! ## The summary and the fields outside the list -/

theorem fieldPieces_congr {V : Type} (r1 r2 : Record V)
    (h : ∀ f ∈ importantFields, r1 f = r2 f) : fieldPieces r1 = fieldPieces r2 := by
  unfold fieldPieces
  generalize importantFields = fields at h
  induction fields with
  | nil => rfl
  | cons f fs ih =>
    have hf := h f (List.mem_cons_self _ _)
    have ih' := ih (fun g hg => h g (List.mem_cons_of_mem _ hg))
    simp only [List.filterMap_cons, hf, ih']

theorem summaryLoop_congr {V : Type} (total : Nat) (d1 d2 : List (Record V))
    (h : List.Forall₂ (fun r1 r2 => ∀ f ∈ importantFields, r1 f = r2 f) d1 d2) :
    ∀ i, summaryLoop total i d1 = summaryLoop total i d2 := by
  induction h with
  | nil => intro i; rfl
  | cons hr _ ih =>
    intro i
    unfold summaryLoop
    by_cases h5 : i ≥ 5
    · rw [if_pos h5, if_pos h5]
    · rw [if_neg h5, if_neg h5, ih (i + 1)]
      unfold sectionPieces
      rw [fieldPieces_congr _ _ hr]

/-- C12: the summary depends on the 12 listed fields only: two sequences of
records of the same length whose records agree, place by place, on the presence
and the value of each listed field have the same summary. -/
theorem createDataSummary_allow_list {V : Type} (fmtV : V → Str) (d1 d2 : List (Record V))
    (h : List.Forall₂ (fun r1 r2 => ∀ f ∈ importantFields, r1 f = r2 f) d1 d2) :
    createDataSummary fmtV d1 = createDataSummary fmtV d2 := by
  unfold createDataSummary createDataSummaryPieces
  rw [h.length_eq, summaryLoop_congr d2.length d1 d2 h 0]

/-- C12 at two records that differ in the field `cpf` and in `email` only. -/
theorem createDataSummary_allow_list_witness :
    importantFields.length = 12 ∧
    createDataSummary (fun v : Str => v)
        [fun f => if f = str "nome" then some (str "Ana")
          else if f = str "cpf" then some (str "111") else none]
      = createDataSummary (fun v : Str => v)
        [fun f => if f = str "nome" then some (str "Ana")
          else if f = str "cpf" then some (str "222")
          else if f = str "email" then some (str "a@b") else none] :=
  ⟨rfl, createDataSummary_allow_list (fun v : Str => v) _ _
    (List.Forall₂.cons (by decide) List.Forall₂.nil)⟩

/-! ## The table resolver -/

theorem le_runLen_iff (p : Char → Bool) (s : Str) : ∀ n,
    n ≤ runLen p s ↔ n ≤ s.length ∧ ∀ c ∈ s.take n, p c = true := by
  induction s with
  | nil => intro n; simp [runLen]
  | cons c cs ih =>
    intro n
    cases n with
    | zero => simp
    | succ n =>
      unfold runLen
      by_cases hc : p c = true
      · rw [if_pos hc]
        simp only [Nat.add_le_add_iff_right, List.length_cons, List.take_succ_cons, List.mem_cons,
          forall_eq_or_imp, hc, true_and]
        exact ih n
      · rw [if_neg hc]
        simp [hc]

theorem mem_lens_plus (greedy : Bool) (p : Char → Bool) (s : Str) (n : Nat) :
    n ∈ (Regex.plus greedy p).lens s ↔ 1 ≤ n ∧ n ≤ runLen p s := by
  cases greedy <;> simp [Regex.lens, List.mem_range'_1] <;> omega

theorem mem_lens_seq (a b : Regex) (s : Str) (n : Nat) :
    n ∈ (Regex.seq a b).lens s ↔ ∃ i ∈ a.lens s, ∃ j ∈ b.lens (s.drop i), n = i + j := by
  simp only [Regex.lens, List.mem_flatMap, List.mem_map]
  constructor
  · rintro ⟨i, hi, j, hj, rfl⟩; exact ⟨i, hi, j, hj, rfl⟩
  · rintro ⟨i, hi, j, hj, rfl⟩; exact ⟨i, hi, j, hj, rfl⟩

theorem mem_lens_lit (w : Str) (k : Regex) : ∀ (s : Str) (n : Nat),
    n ∈ (Regex.lit w k).lens s ↔
      w <+: s ∧ ∃ j ∈ k.lens (s.drop w.length), n = w.length + j := by
  induction w with
  | nil => intro s n; simp [Regex.lit]
  | cons c w ih =>
    intro s n
    rw [Regex.lit, mem_lens_seq]
    cases s with
    | nil => simp [Regex.lens]
    | cons d s =>
      by_cases hd : d = c
      · subst hd
        simp only [Regex.lens, beq_self_eq_true, if_true, List.mem_singleton, exists_eq_left,
          List.drop_succ_cons, List.drop_zero, ih, List.cons_prefix_cons, true_and,
          List.length_cons]
        constructor
        · rintro ⟨j, ⟨hp, j', hj', rfl⟩, rfl⟩
          exact ⟨hp, j', hj', by omega⟩
        · rintro ⟨hp, j', hj', rfl⟩
          exact ⟨w.length + j', ⟨hp, j', hj', rfl⟩, by omega⟩
      · have hd' : (d == c) = false := by simpa using hd
        have hd2 : ¬ c = d := fun h => hd h.symm
        simp [Regex.lens, hd', hd2]


theorem findStringSubmatch_some (a b : Regex) : ∀ (s m g : Str),
    a.findStringSubmatch b s = some (m, g) →
    ∃ t i j, t <:+ s ∧ i ∈ a.lens t ∧ j ∈ b.lens (t.drop i) ∧
      m = t.take (i + j) ∧ g = (t.drop i).take j := by
  intro s
  induction s with
  | nil => intro m g h; simp [Regex.findStringSubmatch] at h
  | cons c cs ih =>
    intro m g h
    rw [Regex.findStringSubmatch] at h
    split at h
    · rename_i i j rest heq
      have hmem : (i, j) ∈ (a.lens (c :: cs)).flatMap
          fun i => (b.lens ((c :: cs).drop i)).map fun j => (i, j) := by
        rw [heq]; exact List.mem_cons_self _ _
      simp only [List.mem_flatMap, List.mem_map, Prod.mk.injEq] at hmem
      obtain ⟨i', hi', j', hj', rfl, rfl⟩ := hmem
      simp only [Option.some.injEq, Prod.mk.injEq] at h
      exact ⟨c :: cs, i', j', List.suffix_refl _, hi', hj', h.1.symm, h.2.symm⟩
    · obtain ⟨t, i, j, ht, hi, hj, hm, hg⟩ := ih m g h
      exact ⟨t, i, j, ht.trans (List.suffix_cons c cs), hi, hj, hm, hg⟩

theorem findStringSubmatch_none (a b : Regex) : ∀ (s : Str),
    a.findStringSubmatch b s = none →
    ∀ t, t <:+ s → t ≠ [] → ∀ i ∈ a.lens t, ∀ j, j ∉ b.lens (t.drop i) := by
  intro s
  induction s with
  | nil =>
    intro _ t ht hne
    exact absurd (List.suffix_nil.mp ht) hne
  | cons c cs ih =>
    intro h t ht hne i hi j hj
    rw [Regex.findStringSubmatch] at h
    split at h
    · cases h
    · rename_i heq
      rcases List.suffix_cons_iff.mp ht with rfl | ht'
      · have hmem : (i, j) ∈ (a.lens (c :: cs)).flatMap
            fun i => (b.lens ((c :: cs).drop i)).map fun j => (i, j) := by
          simp only [List.mem_flatMap, List.mem_map, Prod.mk.injEq]
          exact ⟨i, hi, j, hj, rfl, rfl⟩
        rw [heq] at hmem
        cases hmem
      · exact ih h t ht' hne i hi j hj

theorem toNat_ofNat_small (n : Nat) (h : n < 0xd800) : (Char.ofNat n).toNat = n := by
  have hv : n.isValidChar := Or.inl h
  unfold Char.ofNat
  rw [dif_pos hv]
  rfl

theorem toLowerRune_toNat (d : Char) :
    (toLowerRune d).toNat =
      if 65 ≤ d.toNat ∧ d.toNat ≤ 90 then d.toNat + 32
      else if d.toNat = 0x212A then 107
      else if d.toNat = 0x130 then 105
      else d.toNat := by
  unfold toLowerRune
  have hA : 'A'.toNat = 65 := rfl
  have hZ : 'Z'.toNat = 90 := rfl
  rw [hA, hZ]
  split_ifs with h1 h2 h3
  · exact toNat_ofNat_small _ (by omega)
  · rfl
  · rfl
  · rfl

theorem isTableRune_toLowerRune (d : Char) (h : reWord (toLowerRune d) = true) :
    isTableRune (toLowerRune d) = true := by
  have hn := toLowerRune_toNat d
  have hu : (toLowerRune d == '_') = true ↔ (toLowerRune d).toNat = 95 := by
    rw [beq_iff_eq]
    constructor
    · intro h; rw [h]; rfl
    · intro h; rw [← Char.ofNat_toNat (toLowerRune d), h]
  simp only [reWord, reDigit, isTableRune, Bool.or_eq_true, Bool.and_eq_true,
    decide_eq_true_eq, hu] at h ⊢
  have h0 : '0'.toNat = 48 := rfl
  have h9 : '9'.toNat = 57 := rfl
  have hA : 'A'.toNat = 65 := rfl
  have hZ : 'Z'.toNat = 90 := rfl
  have ha : 'a'.toNat = 97 := rfl
  have hz : 'z'.toNat = 122 := rfl
  rw [h0, h9, hA, hZ, ha, hz] at h
  rw [h0, h9, ha, hz]
  split_ifs at hn <;> omega

theorem submatch_group (t : Str) (i j : Nat)
    (hj : j ∈ (Regex.plus true reWord).lens (t.drop i)) :
    (t.drop i).take j ≠ [] ∧ ∀ c ∈ (t.drop i).take j, reWord c = true := by
  obtain ⟨h1, h2⟩ := (mem_lens_plus _ _ _ _).mp hj
  obtain ⟨h3, h4⟩ := (le_runLen_iff _ _ _).mp h2
  refine ⟨?_, h4⟩
  intro h0
  have := congrArg List.length h0
  simp only [List.length_take, List.length_nil] at this
  omega

theorem convertSQLToPostgREST_cases (sqlQuery : Str) :
    (fromRe.findStringSubmatch (.plus true reWord) (toLower (trimSpace sqlQuery)) = none ∧
      convertSQLToPostgREST sqlQuery = str "clientes") ∨
    ∃ t i j, t <:+ toLower (trimSpace sqlQuery) ∧ i ∈ fromRe.lens t ∧
      j ∈ (Regex.plus true reWord).lens (t.drop i) ∧
      fromRe.findStringSubmatch (.plus true reWord) (toLower (trimSpace sqlQuery))
        = some (t.take (i + j), (t.drop i).take j) ∧
      convertSQLToPostgREST sqlQuery = (t.drop i).take j := by
  cases h : fromRe.findStringSubmatch (.plus true reWord) (toLower (trimSpace sqlQuery)) with
  | none =>
    refine Or.inl ⟨rfl, ?_⟩
    simp only [convertSQLToPostgREST, h]
  | some p =>
    obtain ⟨m, g⟩ := p
    obtain ⟨t, i, j, ht, hi, hj, rfl, rfl⟩ := findStringSubmatch_some _ _ _ _ _ h
    refine Or.inr ⟨t, i, j, ht, hi, hj, rfl, ?_⟩
    simp only [convertSQLToPostgREST, h]

theorem isTableRune_toNat (c : Char) (h : isTableRune c = true) :
    (97 ≤ c.toNat ∧ c.toNat ≤ 122) ∨ (48 ≤ c.toNat ∧ c.toNat ≤ 57) ∨ c.toNat = 95 := by
  simp only [isTableRune, reDigit, Bool.or_eq_true, Bool.and_eq_true, decide_eq_true_eq,
    beq_iff_eq] at h
  rcases h with (h | h) | h
  · exact Or.inl h
  · exact Or.inr (Or.inl h)
  · exact Or.inr (Or.inr (by rw [h]; rfl))

theorem isTableRune_excludes (c : Char) (h : isTableRune c = true) :
    (c != '/' && c != '?' && c != '&' && c != '.' && !isSpace c &&
      !('A'.toNat ≤ c.toNat && c.toNat ≤ 'Z'.toNat)) = true := by
  have hn := isTableRune_toNat c h
  have hne : ∀ d : Char, c.toNat ≠ d.toNat → (c != d) = true := by
    intro d hd
    simp only [bne_iff_ne, ne_eq]
    intro hcd
    exact hd (by rw [hcd])
  have h1 : (c != '/') = true := hne '/' (by show c.toNat ≠ 47; omega)
  have h2 : (c != '?') = true := hne '?' (by show c.toNat ≠ 63; omega)
  have h3 : (c != '&') = true := hne '&' (by show c.toNat ≠ 38; omega)
  have h4 : (c != '.') = true := hne '.' (by show c.toNat ≠ 46; omega)
  have h5 : isSpace c = false := by
    simp only [isSpace, Bool.or_eq_false_iff, Bool.and_eq_false_iff, decide_eq_false_iff_not,
      beq_eq_false_iff_ne, ne_eq]
    omega
  have h6 : ('A'.toNat ≤ c.toNat && c.toNat ≤ 'Z'.toNat) = false := by
    have hA : 'A'.toNat = 65 := rfl
    have hZ : 'Z'.toNat = 90 := rfl
    rw [hA, hZ]
    simp only [Bool.and_eq_false_iff, decide_eq_false_iff_not]
    omega
  rw [h1, h2, h3, h4, h5, h6]
  rfl

/-- C14: for every input, `convertSQLToPostgREST` returns a non-empty text of
ASCII lower-case letters, digits and underscores, so the table that
`executeSupabaseQuery` hands to `makeSupabaseRequest` for the URL holds no `/`,
`?`, `&`, `.`, white space or upper-case letter. -/
theorem convertSQLToPostgREST_table_runes (sqlQuery : Str) :
    convertSQLToPostgREST sqlQuery ≠ [] ∧
    (convertSQLToPostgREST sqlQuery).all isTableRune = true ∧
    (convertSQLToPostgREST sqlQuery).all (fun c =>
      c != '/' && c != '?' && c != '&' && c != '.' && !isSpace c &&
        !('A'.toNat ≤ c.toNat && c.toNat ≤ 'Z'.toNat)) = true ∧
    ∀ (b k : Char) (baseURL apiKey : Str),
      executeSupabaseQuery (b :: baseURL) (k :: apiKey) sqlQuery
        = .ok ⟨str "GET", convertSQLToPostgREST sqlQuery, none, []⟩ := by
  have hall : convertSQLToPostgREST sqlQuery ≠ [] ∧
      ∀ c ∈ convertSQLToPostgREST sqlQuery, isTableRune c = true := by
    rcases convertSQLToPostgREST_cases sqlQuery with ⟨_, h⟩ | ⟨t, i, j, ht, _, hj, _, h⟩
    · rw [h]; exact ⟨by decide, by decide⟩
    · rw [h]
      obtain ⟨hne, hw⟩ := submatch_group t i j hj
      refine ⟨hne, ?_⟩
      intro c hc
      have hc1 : c ∈ toLower (trimSpace sqlQuery) :=
        ht.subset ((List.drop_suffix i t).subset ((List.take_prefix j _).subset hc))
      unfold toLower at hc1
      obtain ⟨d, _, rfl⟩ := List.mem_map.mp hc1
      exact isTableRune_toLowerRune d (hw _ hc)
  refine ⟨hall.1, ?_, ?_, ?_⟩
  · rw [List.all_eq_true]; exact hall.2
  · rw [List.all_eq_true]; intro c hc; exact isTableRune_excludes c (hall.2 c hc)
  · intro b k baseURL apiKey
    simp [executeSupabaseQuery]

theorem mem_fromRe_lens (t : Str) (i : Nat) :
    i ∈ fromRe.lens t ↔
      str "from" <+: t ∧ ∃ k, 1 ≤ k ∧ k ≤ runLen reSpace (t.drop 4) ∧ i = 4 + k := by
  unfold fromRe
  rw [mem_lens_lit]
  have h4 : (str "from").length = 4 := rfl
  rw [h4]
  constructor
  · rintro ⟨hp, k, hk, rfl⟩
    exact ⟨hp, k, ((mem_lens_plus _ _ _ _).mp hk).1, ((mem_lens_plus _ _ _ _).mp hk).2, rfl⟩
  · rintro ⟨hp, k, h1, h2, rfl⟩
    exact ⟨hp, k, (mem_lens_plus _ _ _ _).mpr ⟨h1, h2⟩, rfl⟩

theorem hasToken_of_lens (t : Str) (i j : Nat) (hi : i ∈ fromRe.lens t)
    (hj : j ∈ (Regex.plus true reWord).lens (t.drop i)) : HasToken (str "from") t := by
  obtain ⟨hp, k, hk1, hk2, rfl⟩ := (mem_fromRe_lens t i).mp hi
  have ht : str "from" ++ t.drop 4 = t := List.prefix_iff_eq_append.mp hp
  obtain ⟨hk3, hk4⟩ := (le_runLen_iff _ _ _).mp hk2
  rw [← List.drop_drop] at hj
  obtain ⟨hj1, hj2⟩ := (mem_lens_plus _ _ _ _).mp hj
  obtain ⟨hj3, hj4⟩ := (le_runLen_iff _ _ _).mp hj2
  refine ⟨[], (t.drop 4).take k, ((t.drop 4).drop k).take j, ((t.drop 4).drop k).drop j,
    ?_, ?_, hk4, ?_, hj4⟩
  · rw [List.nil_append, List.append_assoc, List.append_assoc, List.take_append_drop,
      List.take_append_drop, ht]
  · intro h0
    have := congrArg List.length h0
    simp only [List.length_take, List.length_nil] at this
    omega
  · intro h0
    have := congrArg List.length h0
    simp only [List.length_take, List.length_nil] at this
    omega

theorem HasToken.mono (kw : Str) {s1 s : Str} (hs : s1 <:+: s) (h : HasToken kw s1) :
    HasToken kw s := by
  obtain ⟨a, b, rfl⟩ := hs
  obtain ⟨pre, ws, ident, post, rfl, h1, h2, h3, h4⟩ := h
  exact ⟨a ++ pre, ws, ident, post ++ b, by simp [List.append_assoc], h1, h2, h3, h4⟩

theorem toLower_trimSpace_sub (query : Str) : toLower (trimSpace query) <:+: toLower query :=
  (trimSpace_sub query).map toLowerRune

theorem submatch_of_hasToken (s : Str) (h : HasToken (str "from") s) :
    fromRe.findStringSubmatch (.plus true reWord) s ≠ none := by
  intro hn
  obtain ⟨pre, ws, ident, post, rfl, h1, h2, h3, h4⟩ := h
  have hws : 1 ≤ ws.length := List.length_pos.mpr h1
  have hid : 1 ≤ ident.length := List.length_pos.mpr h3
  have hsuf : str "from" ++ (ws ++ (ident ++ post)) <:+ pre ++ str "from" ++ ws ++ ident ++ post :=
    ⟨pre, by simp [List.append_assoc]⟩
  have hi : 4 + ws.length ∈ fromRe.lens (str "from" ++ (ws ++ (ident ++ post))) := by
    rw [mem_fromRe_lens]
    refine ⟨List.prefix_append _ _, ws.length, hws, ?_, rfl⟩
    have hd : (str "from" ++ (ws ++ (ident ++ post))).drop 4 = ws ++ (ident ++ post) :=
      List.drop_left' rfl
    rw [hd, le_runLen_iff]
    refine ⟨by simp, ?_⟩
    rw [List.take_left]
    exact h2
  have hd2 : (str "from" ++ (ws ++ (ident ++ post))).drop (4 + ws.length) = ident ++ post := by
    have hd : (str "from" ++ (ws ++ (ident ++ post))).drop 4 = ws ++ (ident ++ post) :=
      List.drop_left' rfl
    rw [← List.drop_drop, hd, List.drop_left]
  have hj : ident.length ∈ (Regex.plus true reWord).lens
      ((str "from" ++ (ws ++ (ident ++ post))).drop (4 + ws.length)) := by
    rw [hd2, mem_lens_plus, le_runLen_iff]
    refine ⟨hid, by simp, ?_⟩
    rw [List.take_left]
    exact h4
  exact findStringSubmatch_none _ _ _ hn _ hsuf (by simp) _ hi _ hj

/-- C11: a query whose lower-cased form holds no `from` followed by runes of
`\s` and an identifier is resolved to the fallback table `clientes`. -/
theorem convertSQLToPostgREST_fallback (sqlQuery : Str)
    (h : ¬ HasToken (str "from") (toLower sqlQuery)) :
    convertSQLToPostgREST sqlQuery = str "clientes" := by
  rcases convertSQLToPostgREST_cases sqlQuery with ⟨_, hc⟩ | ⟨t, i, j, ht, hi, hj, _, _⟩
  · exact hc
  · exact absurd (HasToken.mono _ (ht.isInfix.trans (toLower_trimSpace_sub sqlQuery))
      (hasToken_of_lens t i j hi hj)) h

/-- C11 at `SELECT * FROM`, where no identifier follows the keyword, and at
`SELECT 1`. -/
theorem convertSQLToPostgREST_fallback_witness :
    convertSQLToPostgREST (str "SELECT * FROM ") = str "clientes" ∧
    convertSQLToPostgREST (str "SELECT 1") = str "clientes" :=
  ⟨convertSQLToPostgREST_fallback (str "SELECT * FROM ")
    (fun h => submatch_of_hasToken _ h (by decide)),
   convertSQLToPostgREST_fallback (str "SELECT 1")
    (fun h => submatch_of_hasToken _ h (by decide))⟩

/-! ## The validator and the table resolver -/

theorem char_eq_iff (c d : Char) : c = d ↔ c.toNat = d.toNat := by
  constructor
  · intro h; rw [h]
  · intro h; rw [← Char.ofNat_toNat c, ← Char.ofNat_toNat d, h]

theorem reSpace_iff (c : Char) :
    reSpace c = true ↔
      c.toNat = 9 ∨ c.toNat = 10 ∨ c.toNat = 12 ∨ c.toNat = 13 ∨ c.toNat = 32 := by
  simp only [reSpace, Bool.or_eq_true, beq_iff_eq, char_eq_iff]
  have h1 : '\t'.toNat = 9 := rfl
  have h2 : '\n'.toNat = 10 := rfl
  have h3 : '\r'.toNat = 13 := rfl
  have h4 : ' '.toNat = 32 := rfl
  rw [h1, h2, h3, h4]
  omega

theorem reWord_iff (c : Char) :
    reWord c = true ↔
      (48 ≤ c.toNat ∧ c.toNat ≤ 57) ∨ (65 ≤ c.toNat ∧ c.toNat ≤ 90) ∨
      (97 ≤ c.toNat ∧ c.toNat ≤ 122) ∨ c.toNat = 95 := by
  simp only [reWord, reDigit, Bool.or_eq_true, Bool.and_eq_true, decide_eq_true_eq,
    beq_iff_eq, char_eq_iff]
  have h0 : '0'.toNat = 48 := rfl
  have h9 : '9'.toNat = 57 := rfl
  have hA : 'A'.toNat = 65 := rfl
  have hZ : 'Z'.toNat = 90 := rfl
  have ha : 'a'.toNat = 97 := rfl
  have hz : 'z'.toNat = 122 := rfl
  have hu : '_'.toNat = 95 := rfl
  rw [h0, h9, hA, hZ, ha, hz, hu]
  omega

theorem toUpperRune_toNat (c : Char) :
    (toUpperRune c).toNat =
      if 97 ≤ c.toNat ∧ c.toNat ≤ 122 then c.toNat - 32
      else if c.toNat = 0x17F then 83
      else if c.toNat = 0x131 then 73
      else c.toNat := by
  unfold toUpperRune
  have ha : 'a'.toNat = 97 := rfl
  have hz : 'z'.toNat = 122 := rfl
  rw [ha, hz]
  split_ifs with h1 h2 h3
  · exact toNat_ofNat_small _ (by omega)
  · rfl
  · rfl
  · rfl

theorem toLowerRune_toUpperRune (c : Char) (h1 : c.toNat ≠ 0x17F) (h2 : c.toNat ≠ 0x131) :
    toLowerRune (toUpperRune c) = toLowerRune c := by
  have hu := toUpperRune_toNat c
  have hl := toLowerRune_toNat c
  have hlu := toLowerRune_toNat (toUpperRune c)
  have : (toLowerRune (toUpperRune c)).toNat = (toLowerRune c).toNat := by
    rw [hlu, hl]
    split_ifs at hu <;> split_ifs <;> omega
  rw [← Char.ofNat_toNat (toLowerRune (toUpperRune c)), this, Char.ofNat_toNat]

theorem reSpace_toLowerRune (c : Char) (h : reSpace c = true) :
    reSpace (toLowerRune c) = true := by
  rw [reSpace_iff] at h ⊢
  have hl := toLowerRune_toNat c
  split_ifs at hl <;> omega

theorem reWord_toLowerRune (c : Char) (h : reWord c = true) :
    reWord (toLowerRune c) = true := by
  rw [reWord_iff] at h ⊢
  have hl := toLowerRune_toNat c
  split_ifs at hl <;> omega

theorem HasToken.toLower {s : Str} (h : HasToken (str "FROM") s) :
    HasToken (str "from") (s.map toLowerRune) := by
  obtain ⟨pre, ws, ident, post, rfl, h1, h2, h3, h4⟩ := h
  refine ⟨pre.map toLowerRune, ws.map toLowerRune, ident.map toLowerRune,
    post.map toLowerRune, ?_, ?_, ?_, ?_, ?_⟩
  · simp only [List.map_append]; rfl
  · simpa using h1
  · intro c hc
    obtain ⟨d, hd, rfl⟩ := List.mem_map.mp hc
    exact reSpace_toLowerRune d (h2 d hd)
  · simpa using h3
  · intro c hc
    obtain ⟨d, hd, rfl⟩ := List.mem_map.mp hc
    exact reWord_toLowerRune d (h4 d hd)

theorem toLower_eq_map_toUpper (x : Str)
    (hx : ∀ c ∈ x, c.toNat ≠ 0x17F ∧ c.toNat ≠ 0x131) :
    toLower x = (toUpper x).map toLowerRune := by
  unfold toLower toUpper
  rw [List.map_map]
  apply List.map_congr_left
  intro c hc
  exact (toLowerRune_toUpperRune c (hx c hc).1 (hx c hc).2).symm

theorem matchString_exists (re : Regex) : ∀ s : Str, re.matchString s = true →
    ∃ t, t <:+ s ∧ ∃ n, n ∈ re.lens t := by
  intro s
  induction s with
  | nil =>
    intro h
    unfold Regex.matchString Regex.matchLen at h
    cases hl : re.lens [] with
    | nil => rw [hl] at h; cases h
    | cons n l => exact ⟨[], List.suffix_refl _, n, by rw [hl]; exact List.mem_cons_self _ _⟩
  | cons c cs ih =>
    intro h
    unfold Regex.matchString Regex.matchLen at h
    cases hl : re.lens (c :: cs) with
    | nil =>
      rw [hl] at h
      simp only [List.head?_nil, Option.isSome_none, Bool.false_or] at h
      obtain ⟨t, ht, hn⟩ := ih h
      exact ⟨t, ht.trans (List.suffix_cons c cs), hn⟩
    | cons n l => exact ⟨c :: cs, List.suffix_refl _, n, by rw [hl]; exact List.mem_cons_self _ _⟩

theorem hasToken_of_lit_lens (kw u : Str) (m : Nat)
    (h : m ∈ (Regex.lit kw (.seq (.plus true reSpace) (.plus true reWord))).lens u) :
    HasToken kw u := by
  obtain ⟨hp, n, hn, _⟩ := (mem_lens_lit _ _ _ _).mp h
  obtain ⟨k, hk, j, hj, _⟩ := (mem_lens_seq _ _ _ _).mp hn
  have ht : kw ++ u.drop kw.length = u := List.prefix_iff_eq_append.mp hp
  obtain ⟨hk1, hk2⟩ := (mem_lens_plus _ _ _ _).mp hk
  obtain ⟨hk3, hk4⟩ := (le_runLen_iff _ _ _).mp hk2
  obtain ⟨hj1, hj2⟩ := (mem_lens_plus _ _ _ _).mp hj
  obtain ⟨hj3, hj4⟩ := (le_runLen_iff _ _ _).mp hj2
  refine ⟨[], (u.drop kw.length).take k, ((u.drop kw.length).drop k).take j,
    ((u.drop kw.length).drop k).drop j, ?_, ?_, hk4, ?_, hj4⟩
  · rw [List.nil_append, List.append_assoc, List.append_assoc, List.take_append_drop,
      List.take_append_drop, ht]
  · intro h0
    have := congrArg List.length h0
    simp only [List.length_take, List.length_nil] at this
    omega
  · intro h0
    have := congrArg List.length h0
    simp only [List.length_take, List.length_nil] at this
    omega

theorem structureRe_hasToken (t : Str) (n : Nat) (h : n ∈ structureRe.lens t) :
    HasToken (str "FROM") t := by
  unfold structureRe at h
  obtain ⟨_, j, hj, _⟩ := (mem_lens_lit _ _ _ _).mp h
  obtain ⟨i1, _, j1, hj1, _⟩ := (mem_lens_seq _ _ _ _).mp hj
  obtain ⟨i2, _, j2, hj2, _⟩ := (mem_lens_seq _ _ _ _).mp hj1
  obtain ⟨i3, _, j3, hj3, _⟩ := (mem_lens_seq _ _ _ _).mp hj2
  have hs : (((t.drop (str "SELECT").length).drop i1).drop i2).drop i3 <:+: t :=
    ((List.drop_suffix _ _).trans ((List.drop_suffix _ _).trans
      ((List.drop_suffix _ _).trans (List.drop_suffix _ _)))).isInfix
  exact HasToken.mono _ hs (hasToken_of_lit_lens _ _ _ hj3)

theorem isValidSelectQuery_structure (query : Str) (h : isValidSelectQuery query = true) :
    structureRe.matchString (toUpper (trimSpace query)) = true := by
  unfold isValidSelectQuery at h
  by_cases hm : structureRe.matchString (toUpper (trimSpace query)) = true
  · exact hm
  · simp [hm] at h

/-- C13, as the claim states it, fails: `SELECT nome FROM ſ` (the table is the
long s, U+017F) is accepted, because its upper case is `S`; its lower case is
itself, which the class `\w` does not hold, so the pattern of
`convertSQLToPostgREST` has no match and the fallback table is returned. -/
theorem isValid_convert_counterexample :
    isValidSelectQuery (str "SELECT nome FROM ſ") = true ∧
    fromRe.findStringSubmatch (.plus true reWord)
      (toLower (trimSpace (str "SELECT nome FROM ſ"))) = none ∧
    convertSQLToPostgREST (str "SELECT nome FROM ſ") = str "clientes" ∧
    contains (toLower (str "SELECT nome FROM ſ")) (str "clientes") = false := by
  decide

/-- C13, amended: for every query without the runes U+017F (long s) and U+0131
(dotless i) that `isValidSelectQuery` accepts, the pattern `from`, `\s+`,
identifier has a match in the trimmed lower-cased query; `convertSQLToPostgREST`
returns the group of the leftmost match, a non-empty token of that text, and
does not take the fallback branch. -/
theorem isValid_convert_agree (query : Str) (hv : isValidSelectQuery query = true)
    (hq : ∀ c ∈ query, c.toNat ≠ 0x17F ∧ c.toNat ≠ 0x131) :
    HasToken (str "from") (toLower (trimSpace query)) ∧
    ∃ m table, fromRe.findStringSubmatch (.plus true reWord) (toLower (trimSpace query))
        = some (m, table) ∧
      convertSQLToPostgREST query = table ∧ table ≠ [] ∧
      table <:+: toLower (trimSpace query) := by
  obtain ⟨t, ht, n, hn⟩ := matchString_exists _ _ (isValidSelectQuery_structure query hv)
  have hup : HasToken (str "FROM") (toUpper (trimSpace query)) :=
    HasToken.mono _ ht.isInfix (structureRe_hasToken t n hn)
  have hx : ∀ c ∈ trimSpace query, c.toNat ≠ 0x17F ∧ c.toNat ≠ 0x131 :=
    fun c hc => hq c ((trimSpace_sub query).subset hc)
  have hlow : HasToken (str "from") (toLower (trimSpace query)) := by
    rw [toLower_eq_map_toUpper _ hx]
    exact hup.toLower
  refine ⟨hlow, ?_⟩
  rcases convertSQLToPostgREST_cases query with ⟨hnone, _⟩ | ⟨u, i, j, hu, _, hj, hsome, hc⟩
  · exact absurd hnone (submatch_of_hasToken _ hlow)
  · refine ⟨u.take (i + j), (u.drop i).take j, hsome, hc, (submatch_group u i j hj).1, ?_⟩
    exact (List.take_prefix j _).isInfix.trans
      ((List.drop_suffix i u).isInfix.trans hu.isInfix)

/-- The amended C13 at `SELECT nome FROM Analises_Credito LIMIT 10`, resolved to
the token `analises_credito` of the lower-cased query. -/
theorem isValid_convert_agree_witness :
    convertSQLToPostgREST (str "SELECT nome FROM Analises_Credito LIMIT 10")
      = str "analises_credito" ∧
    (HasToken (str "from")
        (toLower (trimSpace (str "SELECT nome FROM Analises_Credito LIMIT 10"))) ∧
    ∃ m table, fromRe.findStringSubmatch (.plus true reWord)
        (toLower (trimSpace (str "SELECT nome FROM Analises_Credito LIMIT 10")))
        = some (m, table) ∧
      convertSQLToPostgREST (str "SELECT nome FROM Analises_Credito LIMIT 10") = table ∧
      table ≠ [] ∧
      table <:+: toLower (trimSpace (str "SELECT nome FROM Analises_Credito LIMIT 10"))) :=
  ⟨by decide, isValid_convert_agree (str "SELECT nome FROM Analises_Credito LIMIT 10")
    (by decide) (by decide)⟩

/-! ## The text of the summary, line by line -/

theorem toDigitsCore_no_newline (fuel : Nat) : ∀ (n : Nat) (ds : List Char),
    (∀ c ∈ ds, c ≠ '\n') → ∀ c ∈ Nat.toDigitsCore 10 fuel n ds, c ≠ '\n' := by
  induction fuel with
  | zero => intro n ds h; simpa [Nat.toDigitsCore] using h
  | succ fuel ih =>
    intro n ds h
    have hd : Nat.digitChar (n % 10) ≠ '\n' := by
      have : ∀ m, m < 10 → Nat.digitChar m ≠ '\n' := by decide
      exact this _ (Nat.mod_lt _ (by decide))
    have hds : ∀ c ∈ Nat.digitChar (n % 10) :: ds, c ≠ '\n' := by
      intro c hc
      rcases List.mem_cons.mp hc with rfl | hc
      · exact hd
      · exact h c hc
    unfold Nat.toDigitsCore
    simp only
    split
    · exact hds
    · exact ih _ _ hds

theorem toString_nat_no_newline (n : Nat) : '\n' ∉ (toString n).data := by
  intro h
  exact toDigitsCore_no_newline (n + 1) n [] (by simp) '\n' h rfl

theorem toString_int_no_newline (k : Int) : '\n' ∉ (toString k).data := by
  cases k with
  | ofNat m => exact toString_nat_no_newline m
  | negSucc m =>
    intro h
    have h' : '\n' ∈ '-' :: (toString (m + 1)).data := h
    rcases List.mem_cons.mp h' with h1 | h1
    · cases h1
    · exact toString_nat_no_newline (m + 1) h1

theorem splitLines_append_newline (l rest : Str) (h : '\n' ∉ l) :
    splitLines (l ++ '\n' :: rest) = l :: splitLines rest := by
  induction l with
  | nil => simp [splitLines]
  | cons c l ih =>
    have hc : c ≠ '\n' := fun hc => h (by rw [hc]; exact List.mem_cons_self _ _)
    have hl : '\n' ∉ l := fun hl => h (List.mem_cons_of_mem _ hl)
    rw [List.cons_append, splitLines, if_neg hc, ih hl]

theorem splitLines_lines (ls : List Str) (h : ∀ l ∈ ls, '\n' ∉ l) :
    splitLines (ls.flatMap fun l => l ++ ['\n']) = ls ++ [[]] := by
  induction ls with
  | nil => rfl
  | cons l ls ih =>
    rw [List.flatMap_cons, List.append_assoc, List.singleton_append,
      splitLines_append_newline l _ (h l (List.mem_cons_self _ _)),
      ih (fun l' hl' => h l' (List.mem_cons_of_mem _ hl')), List.cons_append]

theorem Piece.render_eq_lines {V : Type} (fmtV : V → Str) (p : Piece V) (h : p.Plain fmtV) :
    p.render fmtV = (p.lines fmtV).flatMap fun l => l ++ ['\n'] := by
  cases p with
  | noData => exact absurd h (by simp [Piece.Plain])
  | header total =>
    simp only [Piece.render, Piece.lines, List.flatMap_cons, List.flatMap_nil, List.append_nil,
      List.append_assoc, List.nil_append]
    rfl
  | omitted count =>
    simp only [Piece.render, Piece.lines, omittedLine, List.flatMap_cons, List.flatMap_nil,
      List.append_nil, List.append_assoc]
    rfl
  | recordHead number =>
    simp only [Piece.render, Piece.lines, headLine, List.flatMap_cons, List.flatMap_nil,
      List.append_nil, List.append_assoc]
    rfl
  | field name value =>
    simp only [Piece.render, Piece.lines, List.flatMap_cons, List.flatMap_nil,
      List.append_nil, List.append_assoc]
  | sectionEnd => rfl

theorem Piece.lines_no_newline {V : Type} (fmtV : V → Str) (p : Piece V) (h : p.Plain fmtV) :
    ∀ l ∈ p.lines fmtV, '\n' ∉ l := by
  intro l hl
  cases p with
  | noData => exact absurd h (by simp [Piece.Plain])
  | header total =>
    simp only [Piece.lines, List.mem_cons, List.mem_singleton, List.not_mem_nil, or_false] at hl
    rcases hl with rfl | rfl
    · intro hm
      rcases List.mem_append.mp hm with hm | hm
      · revert hm; decide
      · exact toString_nat_no_newline total hm
    · simp
  | omitted count =>
    simp only [Piece.lines, List.mem_singleton] at hl
    subst hl
    intro hm
    unfold omittedLine at hm
    rcases List.mem_append.mp hm with hm | hm
    · rcases List.mem_append.mp hm with hm | hm
      · revert hm; decide
      · exact toString_int_no_newline count hm
    · revert hm; decide
  | recordHead number =>
    simp only [Piece.lines, List.mem_singleton] at hl
    subst hl
    intro hm
    unfold headLine at hm
    rcases List.mem_append.mp hm with hm | hm
    · rcases List.mem_append.mp hm with hm | hm
      · revert hm; decide
      · exact toString_nat_no_newline number hm
    · revert hm; decide
  | field name value =>
    simp only [Piece.lines, List.mem_singleton] at hl
    subst hl
    intro hm
    rcases List.mem_append.mp hm with hm | hm
    · rcases List.mem_append.mp hm with hm | hm
      · rcases List.mem_append.mp hm with hm | hm
        · revert hm; decide
        · exact h.1 hm
      · revert hm; decide
    · exact h.2 hm
  | sectionEnd =>
    simp only [Piece.lines, List.mem_singleton] at hl
    subst hl
    simp

theorem isOmittedLine_omittedLine (count : Int) : isOmittedLine (omittedLine count) = true := by
  unfold isOmittedLine omittedLine
  have h1 : hasPrefix (str "... e mais " ++ (toString count).data ++ str " registros")
      (str "... e mais ") = true := by
    unfold hasPrefix
    rw [List.isPrefixOf_iff_prefix, List.append_assoc]
    exact List.prefix_append _ _
  have h2 : (str " registros").isSuffixOf
      (str "... e mais " ++ (toString count).data ++ str " registros") = true := by
    rw [List.isSuffixOf_iff_suffix]
    exact List.suffix_append _ _
  rw [h1, h2]; rfl

theorem isHeadLine_headLine (number : Nat) : isHeadLine (headLine number) = true := by
  unfold isHeadLine headLine
  have h1 : hasPrefix (str "Registro " ++ (toString number).data ++ str ":")
      (str "Registro ") = true := by
    unfold hasPrefix
    rw [List.isPrefixOf_iff_prefix, List.append_assoc]
    exact List.prefix_append _ _
  have h2 : (str ":").isSuffixOf (str "Registro " ++ (toString number).data ++ str ":") = true := by
    rw [List.isSuffixOf_iff_suffix]
    exact List.suffix_append _ _
  rw [h1, h2]; rfl

theorem Piece.lines_filter_isOmittedLine {V : Type} (fmtV : V → Str) (p : Piece V) :
    (p.lines fmtV).filter isOmittedLine = if p.isOmitted = true then p.lines fmtV else [] := by
  cases p with
  | noData => rfl
  | header total => rfl
  | omitted count =>
    simp [Piece.lines, Piece.isOmitted, isOmittedLine_omittedLine]
  | recordHead number => rfl
  | field name value => rfl
  | sectionEnd => rfl

theorem Piece.lines_filter_isHeadLine {V : Type} (fmtV : V → Str) (p : Piece V) :
    (p.lines fmtV).filter isHeadLine = if p.isRecordHead = true then p.lines fmtV else [] := by
  cases p with
  | noData => rfl
  | header total => rfl
  | omitted count => rfl
  | recordHead number =>
    simp [Piece.lines, Piece.isRecordHead, isHeadLine_headLine]
  | field name value => rfl
  | sectionEnd => rfl

theorem fieldPieces_mem {V : Type} (record : Record V) (p : Piece V)
    (hp : p ∈ fieldPieces record) :
    ∃ name ∈ importantFields, ∃ value, record name = some value ∧ p = .field name value := by
  unfold fieldPieces at hp
  obtain ⟨name, hname, hn⟩ := List.mem_filterMap.mp hp
  cases hv : record name with
  | none => simp [hv] at hn
  | some value =>
    simp [hv] at hn
    exact ⟨name, hname, value, hv, hn.symm⟩

theorem summaryLoop_plain {V : Type} (fmtV : V → Str) (total : Nat) (data : List (Record V)) :
    ∀ i, i ≤ 5 →
    (∀ r ∈ data.take (5 - i), ∀ f ∈ importantFields, ∀ v, r f = some v → '\n' ∉ fmtV v) →
    ∀ p ∈ summaryLoop total i data, p.Plain fmtV := by
  induction data with
  | nil => intro i _ _ p hp; simp [summaryLoop] at hp
  | cons record rest ih =>
    intro i hi h p hp
    unfold summaryLoop at hp
    by_cases h5 : i ≥ 5
    · rw [if_pos h5] at hp
      rw [List.mem_singleton.mp hp]
      trivial
    · rw [if_neg h5] at hp
      have hs : 5 - i = (5 - (i + 1)) + 1 := by omega
      rw [hs, List.take_succ_cons] at h
      rcases List.mem_append.mp hp with hp | hp
      · unfold sectionPieces at hp
        rcases List.mem_cons.mp hp with rfl | hp
        · trivial
        · rcases List.mem_append.mp hp with hp | hp
          · obtain ⟨name, hname, value, hv, rfl⟩ := fieldPieces_mem record p hp
            have hnames : ∀ f ∈ importantFields, '\n' ∉ f := by decide
            exact ⟨hnames name hname, h record (List.mem_cons_self _ _) name hname value hv⟩
          · rw [List.mem_singleton.mp hp]
            trivial
      · exact ih (i + 1) (by omega) (fun r hr => h r (List.mem_cons_of_mem _ hr)) p hp

theorem flatMap_render_eq {V : Type} (fmtV : V → Str) (ps : List (Piece V))
    (h : ∀ p ∈ ps, p.Plain fmtV) :
    ps.flatMap (Piece.render fmtV)
      = (ps.flatMap (Piece.lines fmtV)).flatMap fun l => l ++ ['\n'] := by
  induction ps with
  | nil => rfl
  | cons p ps ih =>
    rw [List.flatMap_cons, List.flatMap_cons, List.flatMap_append,
      Piece.render_eq_lines fmtV p (h p (List.mem_cons_self _ _)),
      ih (fun q hq => h q (List.mem_cons_of_mem _ hq))]

theorem splitLines_pieces {V : Type} (fmtV : V → Str) (ps : List (Piece V))
    (h : ∀ p ∈ ps, p.Plain fmtV) :
    splitLines (ps.flatMap (Piece.render fmtV)) = ps.flatMap (Piece.lines fmtV) ++ [[]] := by
  rw [flatMap_render_eq fmtV ps h]
  apply splitLines_lines
  intro l hl
  obtain ⟨p, hp, hlp⟩ := List.mem_flatMap.mp hl
  exact Piece.lines_no_newline fmtV p (h p hp) l hlp

theorem flatMap_lines_filter {V : Type} (fmtV : V → Str) (keep : Str → Bool)
    (pick : Piece V → Bool)
    (hk : ∀ p : Piece V, (p.lines fmtV).filter keep = if pick p = true then p.lines fmtV else [])
    (ps : List (Piece V)) :
    (ps.flatMap (Piece.lines fmtV)).filter keep = (ps.filter pick).flatMap (Piece.lines fmtV) := by
  induction ps with
  | nil => rfl
  | cons p ps ih =>
    rw [List.flatMap_cons, List.filter_append, ih, hk p]
    by_cases hp : pick p = true
    · rw [if_pos hp, List.filter_cons_of_pos hp, List.flatMap_cons]
    · rw [if_neg hp, List.filter_cons_of_neg hp, List.nil_append]

theorem createDataSummaryPieces_plain {V : Type} (fmtV : V → Str) (data : List (Record V))
    (h0 : data.length ≠ 0)
    (h : ∀ r ∈ data.take 5, ∀ f ∈ importantFields, ∀ v, r f = some v → '\n' ∉ fmtV v) :
    ∀ p ∈ createDataSummaryPieces data, p.Plain fmtV := by
  intro p hp
  unfold createDataSummaryPieces at hp
  rw [if_neg h0] at hp
  rcases List.mem_cons.mp hp with rfl | hp
  · trivial
  · exact summaryLoop_plain fmtV data.length data 0 (by omega) h p hp

theorem splitLines_filter_summary {V : Type} (fmtV : V → Str) (data : List (Record V))
    (h : ∀ r ∈ data.take 5, ∀ f ∈ importantFields, ∀ v, r f = some v → '\n' ∉ fmtV v)
    (keep : Str → Bool) (pick : Piece V → Bool) (hnil : keep [] = false)
    (hno : keep (str "Nenhum dado encontrado.") = false)
    (hk : ∀ p : Piece V, (p.lines fmtV).filter keep = if pick p = true then p.lines fmtV else []) :
    (splitLines (createDataSummary fmtV data)).filter keep
      = if data.length = 0 then []
        else ((createDataSummaryPieces data).filter pick).flatMap (Piece.lines fmtV) := by
  by_cases h0 : data.length = 0
  · have hd : data = [] := List.length_eq_zero.mp h0
    subst hd
    have ht : splitLines (createDataSummary fmtV ([] : List (Record V)))
        = [str "Nenhum dado encontrado."] := rfl
    rw [ht, if_pos h0, List.filter_cons_of_neg (by simp [hno])]
    rfl
  · rw [if_neg h0]
    unfold createDataSummary
    rw [splitLines_pieces fmtV _ (createDataSummaryPieces_plain fmtV data h0 h),
      List.filter_append, flatMap_lines_filter fmtV keep pick hk,
      List.filter_cons_of_neg (by simp [hnil])]
    simp

theorem fieldPieces_render {V : Type} (fmtV : V → Str) (record : Record V) :
    (fieldPieces record).flatMap (Piece.render fmtV)
      = importantFields.flatMap fun field =>
          match record field with
          | some value => str "  " ++ field ++ str ": " ++ fmtV value ++ str "\n"
          | none => [] := by
  unfold fieldPieces
  generalize importantFields = fields
  induction fields with
  | nil => rfl
  | cons f fs ih =>
    rw [List.filterMap_cons, List.flatMap_cons, ← ih]
    cases hv : record f with
    | none => simp
    | some value => simp [Piece.render]

theorem sectionPieces_render {V : Type} (fmtV : V → Str) (i : Nat) (record : Record V) :
    (sectionPieces i record).flatMap (Piece.render fmtV) = sectionText fmtV i record := by
  unfold sectionPieces sectionText
  rw [List.cons_append, List.flatMap_cons, List.flatMap_append, fieldPieces_render]
  simp [Piece.render, List.append_assoc]

theorem createDataSummary_text {V : Type} (fmtV : V → Str) (data : List (Record V)) :
    createDataSummary fmtV data
      = if data.length = 0 then str "Nenhum dado encontrado."
        else str "Total de registros: " ++ (toString data.length).data ++ str "\n\n" ++
          ((data.take 5).enum.flatMap fun p => sectionText fmtV p.1 p.2) ++
          if 5 < data.length then omittedLine ((data.length : Int) - 5) ++ str "\n" else [] := by
  unfold createDataSummary
  rw [(createDataSummary_sections data).1]
  by_cases h0 : data.length = 0
  · rw [if_pos h0, if_pos h0]; rfl
  · rw [if_neg h0, if_neg h0, List.flatMap_append, List.flatMap_cons, List.flatMap_assoc]
    have hs : (fun p : Nat × Record V => (sectionPieces p.1 p.2).flatMap (Piece.render fmtV))
        = fun p => sectionText fmtV p.1 p.2 := by
      funext p; exact sectionPieces_render fmtV p.1 p.2
    rw [hs]
    by_cases h5 : 5 < data.length
    · simp [h5, Piece.render, omittedLine, List.append_assoc]
      rfl
    · simp [h5, Piece.render, List.append_assoc]


/-- C9, as the claim states it, fails on the text of the summary: the values
are written as they are, so one record whose name holds a line break followed
by `... e mais 7 registros` gives a summary with that line although `n = 1`. -/
theorem createDataSummary_omitted_counterexample :
    (splitLines (createDataSummary (fun v : Str => v)
        [fun f => if f = str "nome" then some (str "x\n... e mais 7 registros") else none])).filter
      isOmittedLine = [str "... e mais 7 registros"] := by
  decide

/-- C9, amended: when the rendered values of the listed fields of the first 5
records hold no line break, the lines of the summary of `n` records hold the
line of the omitted records exactly once, stating `n - 5`, when `n > 5`, and not
at all when `n ≤ 5`. -/
theorem createDataSummary_omitted_text {V : Type} (fmtV : V → Str) (data : List (Record V))
    (h : ∀ r ∈ data.take 5, ∀ f ∈ importantFields, ∀ v, r f = some v → '\n' ∉ fmtV v) :
    (splitLines (createDataSummary fmtV data)).filter isOmittedLine
      = if 5 < data.length then [omittedLine ((data.length : Int) - 5)] else [] := by
  rw [splitLines_filter_summary fmtV data h isOmittedLine Piece.isOmitted rfl (by decide)
    (Piece.lines_filter_isOmittedLine fmtV)]
  by_cases h0 : data.length = 0
  · rw [if_pos h0, if_neg (by omega)]
  · rw [if_neg h0, createDataSummary_omitted]
    by_cases h5 : 5 < data.length
    · rw [if_pos h5, if_pos h5]; rfl
    · rw [if_neg h5, if_neg h5]; rfl

/-- The amended C9 at 12 records with a name each: the line states 7. -/
theorem createDataSummary_omitted_text_witness :
    (splitLines (createDataSummary (fun v : Str => v)
        (List.replicate 12 fun f => if f = str "nome" then some (str "Ana") else none))).filter
      isOmittedLine = [str "... e mais 7 registros"] :=
  (createDataSummary_omitted_text (fun v : Str => v)
    (List.replicate 12 fun f => if f = str "nome" then some (str "Ana") else none)
    (by
      intro r hr f _ v hv
      have hr' := List.eq_of_mem_replicate (List.mem_of_mem_take hr)
      subst hr'
      by_cases hf : f = str "nome"
      · simp only [hf, if_true, Option.some.injEq] at hv
        subst hv
        decide
      · simp [hf] at hv)).trans (by decide)

/-- C10, as the claim states it, fails on the text of the summary: one record
whose name holds line breaks and `Registro 2:` gives a summary with two first
lines of sections although `n = 1`. -/
theorem createDataSummary_sections_counterexample :
    (splitLines (createDataSummary (fun v : Str => v)
        [fun f => if f = str "nome" then some (str "a\n\nRegistro 2:\n  nome: b")
          else none])).filter isHeadLine
      = [str "Registro 1:", str "Registro 2:"] := by
  decide

/-- C10, amended: when the rendered values of the listed fields of the first 5
records hold no line break, the lines of the summary of `n` records hold
`min n 5` first lines of sections, `Registro 1:` to `Registro (min n 5):` in
order, never more than 5; and the text is the header, the sections of the first
`min n 5` records in their order, numbered from 1, then the line of the omitted
records if there is one. -/
theorem createDataSummary_sections_text {V : Type} (fmtV : V → Str) (data : List (Record V))
    (h : ∀ r ∈ data.take 5, ∀ f ∈ importantFields, ∀ v, r f = some v → '\n' ∉ fmtV v) :
    (splitLines (createDataSummary fmtV data)).filter isHeadLine
      = (List.range' 1 (min data.length 5)).map headLine ∧
    ((splitLines (createDataSummary fmtV data)).filter isHeadLine).length = min data.length 5 ∧
    ((splitLines (createDataSummary fmtV data)).filter isHeadLine).length ≤ 5 ∧
    createDataSummary fmtV data
      = if data.length = 0 then str "Nenhum dado encontrado."
        else str "Total de registros: " ++ (toString data.length).data ++ str "\n\n" ++
          ((data.take 5).enum.flatMap fun p => sectionText fmtV p.1 p.2) ++
          if 5 < data.length then omittedLine ((data.length : Int) - 5) ++ str "\n" else [] := by
  have hheads : (splitLines (createDataSummary fmtV data)).filter isHeadLine
      = (List.range' 1 (min data.length 5)).map headLine := by
    rw [splitLines_filter_summary fmtV data h isHeadLine Piece.isRecordHead rfl (by decide)
      (Piece.lines_filter_isHeadLine fmtV)]
    by_cases h0 : data.length = 0
    · rw [if_pos h0, h0]; rfl
    · rw [if_neg h0, (createDataSummary_sections data).2.1, List.flatMap_map]
      rw [List.map_eq_flatMap]
      rfl
  refine ⟨hheads, ?_, ?_, createDataSummary_text fmtV data⟩
  · rw [hheads]; simp
  · rw [hheads]; simp

/-- The amended C10 at 7 records with a name each: five sections. -/
theorem createDataSummary_sections_text_witness :
    (splitLines (createDataSummary (fun v : Str => v)
        (List.replicate 7 fun f => if f = str "nome" then some (str "Ana") else none))).filter
      isHeadLine
      = [str "Registro 1:", str "Registro 2:", str "Registro 3:", str "Registro 4:",
         str "Registro 5:"] :=
  (createDataSummary_sections_text (fun v : Str => v)
    (List.replicate 7 fun f => if f = str "nome" then some (str "Ana") else none)
    (by
      intro r hr f _ v hv
      have hr' := List.eq_of_mem_replicate (List.mem_of_mem_take hr)
      subst hr'
      by_cases hf : f = str "nome"
      · simp only [hf, if_true, Option.some.injEq] at hv
        subst hv
        decide
      · simp [hf] at hv)).1.trans (by decide)

end Credibot
